import Mathlib

/-!
Level editor (`src/editor/main-editor.cpp`): placement engine and level-text codec.

A shallow embedding of the editor's level state and of the operations that act on it.

* Positions and the loop counters `xPos`, `yPos` are `float` in the source.  Every value
  they take is an integer, so a `float` is embedded as the integer it holds, and every
  `float` operation of the source (the conversion of an `int`, the product with
  `SIZE = 40.0f`, the increment `++`) rounds its exact result to the nearest value with a
  24-bit significand, ties to even (`f32`).
* A `std::shared_ptr<GameObject>` is an identity plus the object it points to.  The
  identity is a natural number `id`, taken fresh (`Level.nextId`) whenever an object is
  constructed for `addObject`.
* The base class `Level` is not part of the editor's translation unit.  Its members
  used by the editor are embedded from the design document and are marked as such.
* `MouseControlComponent::update` and the layout loop of `EditorLevel::initialize` decide
  which calls to make without reading the level; they are embedded as the list of calls
  they make (`Call`), and `Level.exec` gives each call its effect on the level.
-/

namespace Editor

/-! ## Constants (lines 18-26) -/

def TAG_PLAYER : Int := 1
def TAG_GOAL : Int := 2
def TAG_BLOCK : Int := 3
def TAG_ENEMY : Int := 4
def TAG_COLLECTIBLE : Int := 5

/-- Cell size `SIZE = 40.0f`. -/
def SIZE : Int := 40

/-- A grid coordinate `std::pair<int, int>`: `(column, row)`. -/
abbrev Cell := Int × Int

/-! ## `float` arithmetic on integer values -/

/-- The number of low bits that a natural number loses when it is cut to a 24-bit
significand; the first argument bounds the search (a `float` exponent never exceeds it). -/
def f32Exp : Nat → Nat → Nat
  | 0, _ => 0
  | fuel + 1, m => if m < 16777216 then 0 else f32Exp fuel (m / 2) + 1

/-- Round a natural number to the nearest `float` (24-bit significand, ties to even).
Faithful for every magnitude below 2^128, beyond which a `float` overflows; an `int` and
its product with 40 stay far below. -/
def f32Nat (m : Nat) : Nat :=
  if 2 * (m % 2 ^ f32Exp 104 m) > 2 ^ f32Exp 104 m ∨
      (2 * (m % 2 ^ f32Exp 104 m) = 2 ^ f32Exp 104 m ∧ m / 2 ^ f32Exp 104 m % 2 = 1) then
    (m / 2 ^ f32Exp 104 m + 1) * 2 ^ f32Exp 104 m
  else
    m / 2 ^ f32Exp 104 m * 2 ^ f32Exp 104 m

/-- Round an integer to the nearest `float`: the value of `(float) v`, and of any `float`
operation whose exact result is `v`. -/
def f32 (v : Int) : Int :=
  if v < 0 then -((f32Nat v.natAbs : Nat) : Int) else ((f32Nat v.natAbs : Nat) : Int)

/-- The `float` product `v * SIZE` of an `int` `v` with `SIZE`: `v` is converted to `float`
and the product is rounded. -/
def timesSIZE (v : Int) : Int :=
  f32 (f32 v * SIZE)

/-- The value of a `float` counter that starts at `x` after `n` increments `++`. -/
def counterAfter (n : Nat) (x : Int) : Int :=
  (fun v => f32 (v + 1))^[n] x

/-! ## Game objects (lines 96-177) -/

/-- The part of `GameObject(level, x, y, w, h, tag)` that the editor reads or writes:
identity, position, size, tag, and whether a `MouseControlComponent` is attached. -/
structure GameObject where
  id : Nat
  x : Int
  y : Int
  w : Int
  h : Int
  tag : Int
  mouseControl : Bool
deriving DecidableEq, Repr

/-- `EditorPlayer(level, x, y, playerTextures)`. -/
def EditorPlayer (id : Nat) (x y : Int) : GameObject :=
  ⟨id, x, y, SIZE, SIZE, TAG_PLAYER, false⟩

/-- `EditorGoal(level, x, y)`. -/
def EditorGoal (id : Nat) (x y : Int) : GameObject :=
  ⟨id, x, y, SIZE, SIZE, TAG_GOAL, false⟩

/-- `EditorBlock(level, x, y, blockTextures)`. -/
def EditorBlock (id : Nat) (x y : Int) : GameObject :=
  ⟨id, x, y, SIZE, SIZE, TAG_BLOCK, false⟩

/-- `EditorEnemy(level, x, y)`. -/
def EditorEnemy (id : Nat) (x y : Int) : GameObject :=
  ⟨id, x, y, SIZE, SIZE, TAG_ENEMY, false⟩

/-- `EditorCollectible(level, x, y, collectibleTextures)`. -/
def EditorCollectible (id : Nat) (x y : Int) : GameObject :=
  ⟨id, x, y, SIZE, SIZE, TAG_COLLECTIBLE, false⟩

/-- `EditorObject(level)`: tag 0, position (0,0), size 0x0, with its own
`MouseControlComponent`. -/
def EditorObject (id : Nat) : GameObject :=
  ⟨id, 0, 0, 0, 0, 0, true⟩

/-- Modelled from the spec: the cell of an object, "derived by dividing each Entity's
continuous position by `cellSize`" (floor division). -/
def GameObject.cell (o : GameObject) (size : Int) : Cell :=
  (o.x / size, o.y / size)

/-! ## The level state -/

/-- The state of a `Level` that the editor uses: the insertion-ordered registry of
objects, the two singleton references `mPlayer` and `mGoal` (the identity of the
referenced object, or `none` for a null pointer) and the next fresh identity. -/
structure Level where
  objects : List GameObject
  mPlayer : Option Nat
  mGoal : Option Nat
  nextId : Nat
deriving DecidableEq, Repr

/-- A level without objects and with both singleton references null. -/
def Level.empty : Level := ⟨[], none, none, 0⟩

/-- Modelled from the spec: `Level::getObjectAtPosition(position, size)`, missing from the
sources.  "Linear scan of the Entity Registry for an Entity whose cell equals the query;
returns the first match by insertion order.  No side effects." -/
def Level.getObjectAtPosition (L : Level) (position : Cell) (size : Int) :
    Option GameObject :=
  L.objects.find? (fun o => decide (o.cell size = position))

/-- Modelled from the spec: `Level::addObject(object)`, missing from the sources.  The
registry is "an insertion-ordered collection": the object is appended.  The identity
counter advances past the object just constructed. -/
def Level.addObject (L : Level) (o : GameObject) : Level :=
  { L with objects := L.objects ++ [o], nextId := L.nextId + 1 }

/-- Modelled from the spec: `Level::setPlayer(player)`, missing from the sources: "bind it
as the singleton". -/
def Level.setPlayer (L : Level) (o : GameObject) : Level :=
  { L with mPlayer := some o.id }

/-- Modelled from the spec: `Level::setGoal(goal)`, missing from the sources. -/
def Level.setGoal (L : Level) (o : GameObject) : Level :=
  { L with mGoal := some o.id }

/-- Modelled from the spec: the relocation step of `Level::movePlayer` and
`Level::moveGoal`, "set `cell` to the new target": the object with identity `i` is put on
the corner of cell `position`, so that its cell is `position`, and every other object is
left as it is. -/
def relocate (i : Nat) (position : Cell) (size : Int) (o : GameObject) : GameObject :=
  if o.id = i then { o with x := position.1 * size, y := position.2 * size } else o

/-- Modelled from the spec: `Level::movePlayer(position, size)`, missing from the sources.
"Relocate it - remove its old cell binding and set cell to the new target (the singleton
is moved, not recreated)." -/
def Level.movePlayer (L : Level) (position : Cell) (size : Int) : Level :=
  match L.mPlayer with
  | some i => { L with objects := L.objects.map (relocate i position size) }
  | none => L

/-- Modelled from the spec: `Level::moveGoal(position, size)`, missing from the sources.
"Identical move-or-create rule as Player, independent singleton slot." -/
def Level.moveGoal (L : Level) (position : Cell) (size : Int) : Level :=
  match L.mGoal with
  | some i => { L with objects := L.objects.map (relocate i position size) }
  | none => L

/-- Modelled from the spec: `Level::removeObjectAtMouse(position, size)`, missing from the
sources.  "If `findAt(cell)` finds an Entity, destroy it; if that Entity was the Player or
Goal singleton, clear the corresponding weak reference.  No-op if the cell is empty." -/
def Level.removeObjectAtMouse (L : Level) (position : Cell) (size : Int) : Level :=
  match L.getObjectAtPosition position size with
  | none => L
  | some o =>
    { L with
      objects := L.objects.erase o
      mPlayer := if L.mPlayer = some o.id then none else L.mPlayer
      mGoal := if L.mGoal = some o.id then none else L.mGoal }

/-! ## `EditorLevel::makeObject` (lines 195-255) -/

/-- `EditorLevel::makeObject(tag, position)`.  The positions `position.first * SIZE` and
`position.second * SIZE` are `float` products. -/
def EditorLevel.makeObject (tag : Int) (position : Cell) (L : Level) : Level :=
  if (L.getObjectAtPosition (position.1, position.2) SIZE).isSome then
    L
  else if tag = TAG_PLAYER then
    if L.mPlayer.isSome then
      L.movePlayer position SIZE
    else
      let player := EditorPlayer L.nextId (timesSIZE position.1) (timesSIZE position.2)
      (L.setPlayer player).addObject player
  else if tag = TAG_GOAL then
    if L.mGoal.isSome then
      L.moveGoal position SIZE
    else
      let goal := EditorGoal L.nextId (timesSIZE position.1) (timesSIZE position.2)
      (L.setGoal goal).addObject goal
  else if tag = TAG_BLOCK then
    L.addObject (EditorBlock L.nextId (timesSIZE position.1) (timesSIZE position.2))
  else if tag = TAG_ENEMY then
    L.addObject (EditorEnemy L.nextId (timesSIZE position.1) (timesSIZE position.2))
  else if tag = TAG_COLLECTIBLE then
    L.addObject (EditorCollectible L.nextId (timesSIZE position.1) (timesSIZE position.2))
  else
    L

/-! ## Commands issued by the editor -/

/-- The calls on the level that `MouseControlComponent::update` and the layout loop of
`EditorLevel::initialize` make.  `exportAndSave` stands for the two statements of the save
branch (lines 82-83): `level.exportLevel(SIZE, filename)` followed by
`ResourceManager::saveLevel(filename, output)`.  `addEditorObject` is
`addObject(std::make_shared<EditorObject>(*this))` (line 330). -/
inductive Call where
  | makeObject (tag : Int) (position : Cell)
  | removeObjectAtMouse (position : Cell)
  | exportAndSave
  | addEditorObject
deriving DecidableEq, Repr

/-- The effect of one call on the level.  Saving writes a file and leaves the level as it
is. -/
def Level.exec (L : Level) : Call → Level
  | .makeObject tag position => EditorLevel.makeObject tag position L
  | .removeObjectAtMouse position => L.removeObjectAtMouse position SIZE
  | .exportAndSave => L
  | .addEditorObject => L.addObject (EditorObject L.nextId)

/-- Run a sequence of calls, first to last. -/
def Level.run (L : Level) (cs : List Call) : Level :=
  cs.foldl Level.exec L

/-! ## `MouseControlComponent::update` (lines 41-85) -/

/-- The seven key states sampled at lines 45-51. -/
structure Keys where
  playerKey : Bool
  enemyKey : Bool
  goalKey : Bool
  blockKey : Bool
  deleteKey : Bool
  collectibleKey : Bool
  saveKey : Bool
deriving DecidableEq, Repr

/-- `MouseControlComponent::update(level)`: the calls it makes on the level, given the
sampled keys and the pointer cell `mousePosn`. -/
def MouseControlComponent.update (k : Keys) (mousePosn : Cell) : List Call :=
  if k.playerKey then [Call.makeObject TAG_PLAYER mousePosn]
  else if k.enemyKey then [Call.makeObject TAG_ENEMY mousePosn]
  else if k.goalKey then [Call.makeObject TAG_GOAL mousePosn]
  else if k.blockKey then [Call.makeObject TAG_BLOCK mousePosn]
  else if k.deleteKey then [Call.removeObjectAtMouse mousePosn]
  else if k.collectibleKey then [Call.makeObject TAG_COLLECTIBLE mousePosn]
  else if k.saveKey then [Call.exportAndSave]
  else []

/-! ## The layout loop of `EditorLevel::initialize` (lines 303-335) -/

/-- The body of the inner loop for the character `ch` at `(xPos, yPos)`: five independent
`if`s, then the unconditional `addObject` of an `EditorObject`.  `std::make_pair(xPos, yPos)`
converts the two `float` counters to the `int`s they hold. -/
def EditorLevel.charCalls (ch : Char) (xPos yPos : Int) : List Call :=
  (if ch = 'O' then [Call.makeObject TAG_BLOCK (xPos, yPos)] else []) ++
  (if ch = 'P' then [Call.makeObject TAG_PLAYER (xPos, yPos)] else []) ++
  (if ch = 'G' then [Call.makeObject TAG_GOAL (xPos, yPos)] else []) ++
  (if ch = 'E' then [Call.makeObject TAG_ENEMY (xPos, yPos)] else []) ++
  (if ch = 'C' then [Call.makeObject TAG_COLLECTIBLE (xPos, yPos)] else []) ++
  [Call.addEditorObject]

/-- The inner loop over the characters `levelLayout[i][j..]` of one row; the `float`
counter `xPos` is incremented (`xPos++`) after each character. -/
def EditorLevel.rowCalls : List Char → Int → Int → List Call
  | [], _, _ => []
  | ch :: rest, xPos, yPos =>
    EditorLevel.charCalls ch xPos yPos ++ EditorLevel.rowCalls rest (f32 (xPos + 1)) yPos

/-- The outer loop over the rows `levelLayout[i..]`: `xPos` restarts at 0 for each row
and the `float` counter `yPos` is incremented (`yPos++`) after it. -/
def EditorLevel.layoutCalls : List (List Char) → Int → List Call
  | [], _ => []
  | row :: rest, yPos =>
    EditorLevel.rowCalls row 0 yPos ++ EditorLevel.layoutCalls rest (f32 (yPos + 1))

/-- The calls of the layout loop, starting with `xPos = 0`, `yPos = 0`. -/
def EditorLevel.initializeCalls (levelLayout : List (List Char)) : List Call :=
  EditorLevel.layoutCalls levelLayout 0

/-- The layout loop of `EditorLevel::initialize`, run on the level `L` that `finalize()`
and the texture set-up (lines 259-301, which do not touch the registry) leave behind. -/
def EditorLevel.initialize (levelLayout : List (List Char)) (L : Level) : Level :=
  L.run (EditorLevel.initializeCalls levelLayout)

/-! ## `Level::exportLevel` -/

/-- The bounds `Level(20 * SIZE, 20 * SIZE, true)` given by the `EditorLevel` constructor
(line 183). -/
def EditorLevel.width : Int := 20 * SIZE

/-- Height of the level, see `EditorLevel.width`. -/
def EditorLevel.height : Int := 20 * SIZE

/-- Modelled from the spec: the symbol that `encode` writes for a tag, `P` Player, `G` Goal,
`O` Block, `E` Enemy, `C` Collectible, and the empty symbol for anything else. -/
def tagSymbol (emptySym : Char) (tag : Int) : Char :=
  if tag = TAG_PLAYER then 'P'
  else if tag = TAG_GOAL then 'G'
  else if tag = TAG_BLOCK then 'O'
  else if tag = TAG_ENEMY then 'E'
  else if tag = TAG_COLLECTIBLE then 'C'
  else emptySym

/-- Modelled from the spec: the symbol that `encode` emits for one cell, "the symbol for the
occupying Entity's tag, or the empty symbol if none". -/
def Level.symbolAt (L : Level) (position : Cell) (size : Int) (emptySym : Char) : Char :=
  match L.getObjectAtPosition position size with
  | some o => tagSymbol emptySym o.tag
  | none => emptySym

/-- Modelled from the spec: `Level::exportLevel(size, filename)`, missing from the sources.
"For every cell in the level's fixed bounds, in row-major order, emits the symbol for the
occupying Entity's tag, or the empty symbol if none.  Row length and row count are fixed by
the level's declared bounds, not by the extent of placed entities."  The empty symbol
("conventionally `.` or space") is a parameter. -/
def Level.exportLevel (L : Level) (size : Int) (emptySym : Char) : List (List Char) :=
  (List.range (EditorLevel.height / size).toNat).map fun (r : Nat) =>
    (List.range (EditorLevel.width / size).toNat).map fun (c : Nat) =>
      L.symbolAt ((c : Int), (r : Int)) size emptySym

/-! ## Vocabulary of the properties -/

/-- The two operations of the placement engine: `place(tag, cell)` is
`EditorLevel::makeObject` and `removeAt(cell)` is `Level::removeObjectAtMouse` with cell
size `SIZE`. -/
inductive EditOp where
  | place (tag : Int) (cell : Cell)
  | removeAt (cell : Cell)
deriving DecidableEq, Repr

/-- The call that an edit operation stands for. -/
def EditOp.toCall : EditOp → Call
  | .place tag cell => Call.makeObject tag cell
  | .removeAt cell => Call.removeObjectAtMouse cell

/-- The registry's objects that carry the given tag. -/
def Level.withTag (L : Level) (tag : Int) : List GameObject :=
  L.objects.filter (fun o => decide (o.tag = tag))

/-- The tags of the closed enumeration Player, Goal, Block, Enemy, Collectible. -/
def isEntityTag (tag : Int) : Bool :=
  decide (tag = TAG_PLAYER ∨ tag = TAG_GOAL ∨ tag = TAG_BLOCK ∨ tag = TAG_ENEMY ∨
    tag = TAG_COLLECTIBLE)

/-- The placed entities of a level: the registry's objects with one of the five entity
tags, in registry order (the tag-0 `EditorObject`s are input controllers). -/
def Level.entities (L : Level) : List GameObject :=
  L.objects.filter (fun o => isEntityTag o.tag)

/-- The (tag, cell) pairs of the placed entities, in registry order. -/
def Level.pairs (L : Level) : List (Int × Cell) :=
  L.entities.map (fun o => (o.tag, o.cell SIZE))

/-- The three structural invariants of the registry: no two placed entities share a cell,
at most one has tag Player, at most one has tag Goal. -/
def Level.Invariants (L : Level) : Prop :=
  (L.entities.map (fun o => o.cell SIZE)).Nodup ∧
  (L.withTag TAG_PLAYER).length ≤ 1 ∧
  (L.withTag TAG_GOAL).length ≤ 1

/-- Every placed entity is the object that the occupancy lookup reports at its cell: no
object earlier in the registry sits on the same cell. -/
def Level.EntitiesVisible (L : Level) : Prop :=
  ∀ o ∈ L.entities, L.getObjectAtPosition (o.cell SIZE) SIZE = some o

/-- The largest coordinate up to which every product with `SIZE` is exact in `float`. -/
def EXACT_MAX : Int := 3355444

/-- Both coordinates of the cell have magnitude at most `EXACT_MAX`. -/
def CellInRange (c : Cell) : Prop :=
  -EXACT_MAX ≤ c.1 ∧ c.1 ≤ EXACT_MAX ∧ -EXACT_MAX ≤ c.2 ∧ c.2 ≤ EXACT_MAX

/-- An edit operation whose placement cell, if it places, is in range. -/
def EditOp.InRange : EditOp → Prop
  | .place _ cell => CellInRange cell
  | .removeAt _ => True

/-- A layout with at most `n` rows of at most `n` characters each. -/
def LayoutWithin (n : Nat) (layout : List (List Char)) : Prop :=
  layout.length ≤ n ∧ ∀ row ∈ layout, row.length ≤ n

/-- Consistency of identities and singleton references: identities are distinct and
below the counter, each non-null singleton reference points to an object of the registry
with the matching tag, and every object with a singleton tag is the one referenced. -/
structure Level.WF (L : Level) : Prop where
  ids_lt : ∀ o ∈ L.objects, o.id < L.nextId
  ids_nodup : (L.objects.map (fun o => o.id)).Nodup
  player_ref : ∀ i, L.mPlayer = some i → ∃ o ∈ L.objects, o.id = i ∧ o.tag = TAG_PLAYER
  player_tag : ∀ o ∈ L.objects, o.tag = TAG_PLAYER → L.mPlayer = some o.id
  goal_ref : ∀ i, L.mGoal = some i → ∃ o ∈ L.objects, o.id = i ∧ o.tag = TAG_GOAL
  goal_tag : ∀ o ∈ L.objects, o.tag = TAG_GOAL → L.mGoal = some o.id

/-- The tag that a character of the level-text format stands for: `P` Player, `G` Goal,
`O` Block, `E` Enemy, `C` Collectible; no tag for any other character. -/
def symbolTag (ch : Char) : Option Int :=
  if ch = 'P' then some TAG_PLAYER
  else if ch = 'G' then some TAG_GOAL
  else if ch = 'O' then some TAG_BLOCK
  else if ch = 'E' then some TAG_ENEMY
  else if ch = 'C' then some TAG_COLLECTIBLE
  else none

/-- The characters of a layout in scan order (rows top to bottom, characters left to
right), each with its cell `(columnIndex, rowIndex)`. -/
def scanCells (layout : List (List Char)) : List (Char × Cell) :=
  layout.enum.flatMap fun ir => ir.2.enum.map fun jc => (jc.2, ((jc.1 : Int), (ir.1 : Int)))

/-- The calls that the layout loop makes for one scanned character: a `makeObject` when
the character is a recognized symbol, and the `addObject` of an `EditorObject`. -/
def scanStep (p : Char × Cell) : List Call :=
  (match symbolTag p.1 with
    | some tag => [Call.makeObject tag p.2]
    | none => []) ++ [Call.addEditorObject]

/-- Whether a call is a `makeObject` call. -/
def Call.isMakeObject : Call → Bool
  | .makeObject _ _ => true
  | _ => false

/-- The total number of characters of a layout. -/
def layoutSize (layout : List (List Char)) : Nat :=
  (layout.map List.length).sum

/-- Every object's tag is 0 or one of the five entity tags. -/
def Level.TagsKnown (L : Level) : Prop :=
  ∀ o ∈ L.objects, o.tag = 0 ∨ isEntityTag o.tag = true

/-! ## The placement rules on (tag, cell) pairs -/

/-- The rule of `place(tag, cell)` on an empty target cell, read on the list of
(tag, cell) pairs of the placed entities: a singleton tag (Player, Goal) that is already
present is moved to the cell, anything else is appended. -/
def placePair (q : Int × Cell) (ps : List (Int × Cell)) : List (Int × Cell) :=
  if (q.1 = TAG_PLAYER ∨ q.1 = TAG_GOAL) ∧ (∃ p ∈ ps, p.1 = q.1) then
    ps.map (fun p => if p.1 = q.1 then q else p)
  else
    ps ++ [q]

/-- One scanned character applied to the list of (tag, cell) pairs. -/
def decodeStep (ps : List (Int × Cell)) (p : Char × Cell) : List (Int × Cell) :=
  match symbolTag p.1 with
  | some tag => placePair (tag, p.2) ps
  | none => ps

/-- The (tag, cell) pairs that decoding a layout yields: every recognized character of
the scan is placed in turn, starting from no pairs. -/
def decodePairs (layout : List (List Char)) : List (Int × Cell) :=
  (scanCells layout).foldl decodeStep []

/-- The scan position `(x, y)` lies after the cell `c` in scan order. -/
def scannedBefore (c : Cell) (x y : Int) : Prop :=
  c.2 < y ∨ (c.2 = y ∧ c.1 < x)

/-- Every object of the level sits on a cell that the scan has already passed. -/
def Level.ScannedTo (L : Level) (x y : Int) : Prop :=
  ∀ o ∈ L.objects, scannedBefore (o.cell SIZE) x y

/-- The placed entities lie within the 20 x 20 cells of the level's bounds. -/
def Level.InBounds (L : Level) : Prop :=
  ∀ o ∈ L.entities,
    0 ≤ (o.cell SIZE).1 ∧ (o.cell SIZE).1 < 20 ∧ 0 ≤ (o.cell SIZE).2 ∧ (o.cell SIZE).2 < 20

/-- A row of `n` empty symbols. -/
def emptyRow (emptySym : Char) (n : Nat) : List Char :=
  List.replicate n emptySym

/-- A call whose cell, if it is a `makeObject` call, is in range. -/
def Call.InRange : Call → Prop
  | .makeObject _ position => CellInRange position
  | _ => True

end Editor
namespace Editor

/-! ## Basic facts -/

theorem SIZE_ne_zero : SIZE ≠ 0 := by decide

theorem cell_of_corner (i : Nat) (x y w h t : Int) (b : Bool) (c : Cell)
    (hx : x = c.1 * SIZE) (hy : y = c.2 * SIZE) :
    GameObject.cell ⟨i, x, y, w, h, t, b⟩ SIZE = c := by
  subst hx hy
  simp only [GameObject.cell]
  rw [Int.mul_ediv_cancel _ SIZE_ne_zero, Int.mul_ediv_cancel _ SIZE_ne_zero]

theorem getObjectAtPosition_eq_none {L : Level} {c : Cell} {size : Int} :
    L.getObjectAtPosition c size = none ↔ ∀ o ∈ L.objects, o.cell size ≠ c := by
  simp [Level.getObjectAtPosition, List.find?_eq_none]

theorem getObjectAtPosition_some_mem {L : Level} {c : Cell} {size : Int} {o : GameObject}
    (h : L.getObjectAtPosition c size = some o) : o ∈ L.objects ∧ o.cell size = c := by
  unfold Level.getObjectAtPosition at h
  refine ⟨List.mem_of_find?_eq_some h, ?_⟩
  simpa using List.find?_some h

theorem makeObject_of_occupied (tag : Int) (c : Cell) (L : Level)
    (h : (L.getObjectAtPosition c SIZE).isSome = true) :
    EditorLevel.makeObject tag c L = L := by
  unfold EditorLevel.makeObject
  simp [h]

end Editor

namespace Editor

/-! ## Exact `float` values -/

theorem f32Exp_le (fuel m k : Nat) (h : m < 2 ^ (24 + k)) : f32Exp fuel m ≤ k := by
  induction fuel generalizing m k with
  | zero => simp [f32Exp]
  | succ fuel ih =>
    unfold f32Exp
    split_ifs with h1
    · omega
    · cases k with
      | zero => simp at h; omega
      | succ k =>
        have : m / 2 < 2 ^ (24 + k) := by
          have e : 2 ^ (24 + (k + 1)) = 2 * 2 ^ (24 + k) := by ring
          rw [e] at h
          omega
        have := ih (m / 2) k this
        omega

/-- A multiple of 8 below 2^27 is a `float`. -/
theorem f32Nat_of_dvd8 (m : Nat) (h8 : m % 8 = 0) (hlt : m < 134217728) : f32Nat m = m := by
  have he : f32Exp 104 m ≤ 3 := f32Exp_le 104 m 3 (by norm_num; exact hlt)
  unfold f32Nat
  generalize f32Exp 104 m = e at he
  interval_cases e <;> simp <;> (try split_ifs) <;> omega

/-- A natural number below 2^24 is a `float`. -/
theorem f32Nat_small (m : Nat) (hlt : m < 16777216) : f32Nat m = m := by
  have he : f32Exp 104 m = 0 := by unfold f32Exp; simp [hlt]
  unfold f32Nat
  rw [he]; simp; omega

/-- An integer of magnitude at most 2^24 is a `float`. -/
theorem f32_of_abs_le (v : Int) (h1 : -16777216 ≤ v) (h2 : v ≤ 16777216) : f32 v = v := by
  have key : f32Nat v.natAbs = v.natAbs := by
    by_cases h : v.natAbs < 16777216
    · exact f32Nat_small _ h
    · have : v.natAbs = 16777216 := by omega
      rw [this]; decide
  unfold f32
  rw [key]
  split_ifs <;> omega

/-- Incrementing a `float` counter below 2^24 is exact. -/
theorem f32_succ (n : Int) (h0 : 0 ≤ n) (h1 : n < 16777216) : f32 (n + 1) = n + 1 :=
  f32_of_abs_le (n + 1) (by omega) (by omega)

/-- The product with `SIZE` is exact for coordinates of magnitude at most
`EXACT_MAX`. -/
theorem timesSIZE_exact (v : Int) (h1 : -EXACT_MAX ≤ v) (h2 : v ≤ EXACT_MAX) :
    timesSIZE v = v * SIZE := by
  unfold EXACT_MAX at h1 h2
  unfold timesSIZE
  rw [f32_of_abs_le v (by omega) (by omega)]
  have key : f32Nat (v * SIZE).natAbs = (v * SIZE).natAbs := by
    have hm : (v * SIZE).natAbs = 40 * v.natAbs := by unfold SIZE; omega
    rw [hm]
    by_cases h : v.natAbs ≤ 3355443
    · exact f32Nat_of_dvd8 _ (by omega) (by omega)
    · have : v.natAbs = 3355444 := by omega
      rw [this]; decide
  unfold f32
  rw [key]
  split_ifs <;> omega

/-- The cell of an object placed on the corner of an in-range cell is that cell. -/
theorem cell_of_timesSIZE (i : Nat) (w h t : Int) (b : Bool) (c : Cell)
    (hr : CellInRange c) :
    GameObject.cell ⟨i, timesSIZE c.1, timesSIZE c.2, w, h, t, b⟩ SIZE = c :=
  cell_of_corner i _ _ w h t b c (timesSIZE_exact _ hr.1 hr.2.1)
    (timesSIZE_exact _ hr.2.2.1 hr.2.2.2)

/-! ## Unfolding `makeObject` -/

theorem makeObject_of_empty_gen (tag : Int) (c : Cell) (L : Level)
    (h : L.getObjectAtPosition c SIZE = none) :
    EditorLevel.makeObject tag c L =
      if tag = TAG_PLAYER then
        if L.mPlayer.isSome then L.movePlayer c SIZE
        else (L.setPlayer (EditorPlayer L.nextId (timesSIZE c.1) (timesSIZE c.2))).addObject
          (EditorPlayer L.nextId (timesSIZE c.1) (timesSIZE c.2))
      else if tag = TAG_GOAL then
        if L.mGoal.isSome then L.moveGoal c SIZE
        else (L.setGoal (EditorGoal L.nextId (timesSIZE c.1) (timesSIZE c.2))).addObject
          (EditorGoal L.nextId (timesSIZE c.1) (timesSIZE c.2))
      else if tag = TAG_BLOCK then
        L.addObject (EditorBlock L.nextId (timesSIZE c.1) (timesSIZE c.2))
      else if tag = TAG_ENEMY then
        L.addObject (EditorEnemy L.nextId (timesSIZE c.1) (timesSIZE c.2))
      else if tag = TAG_COLLECTIBLE then
        L.addObject (EditorCollectible L.nextId (timesSIZE c.1) (timesSIZE c.2))
      else L := by
  unfold EditorLevel.makeObject
  simp [h]

theorem makeObject_of_empty (tag : Int) (c : Cell) (L : Level) (hr : CellInRange c)
    (h : L.getObjectAtPosition c SIZE = none) :
    EditorLevel.makeObject tag c L =
      if tag = TAG_PLAYER then
        if L.mPlayer.isSome then L.movePlayer c SIZE
        else (L.setPlayer (EditorPlayer L.nextId (c.1 * SIZE) (c.2 * SIZE))).addObject
          (EditorPlayer L.nextId (c.1 * SIZE) (c.2 * SIZE))
      else if tag = TAG_GOAL then
        if L.mGoal.isSome then L.moveGoal c SIZE
        else (L.setGoal (EditorGoal L.nextId (c.1 * SIZE) (c.2 * SIZE))).addObject
          (EditorGoal L.nextId (c.1 * SIZE) (c.2 * SIZE))
      else if tag = TAG_BLOCK then
        L.addObject (EditorBlock L.nextId (c.1 * SIZE) (c.2 * SIZE))
      else if tag = TAG_ENEMY then
        L.addObject (EditorEnemy L.nextId (c.1 * SIZE) (c.2 * SIZE))
      else if tag = TAG_COLLECTIBLE then
        L.addObject (EditorCollectible L.nextId (c.1 * SIZE) (c.2 * SIZE))
      else L := by
  rw [makeObject_of_empty_gen tag c L h, timesSIZE_exact _ hr.1 hr.2.1,
    timesSIZE_exact _ hr.2.2.1 hr.2.2.2]

/-- After appending an object whose cell is `c`, the lookup at `c` succeeds. -/
theorem addObject_occupies (L : Level) (o : GameObject) (c : Cell) (h : o.cell SIZE = c) :
    ((L.addObject o).getObjectAtPosition c SIZE).isSome = true := by
  simp only [Level.getObjectAtPosition, Level.addObject, List.find?_isSome]
  exact ⟨o, by simp, by simp [h]⟩

theorem relocate_cell (i : Nat) (c : Cell) (o : GameObject) (h : o.id = i) :
    (relocate i c SIZE o).cell SIZE = c := by
  obtain ⟨oi, x, y, w, hh, t, b⟩ := o
  simp only [relocate, if_pos h]
  exact cell_of_corner _ _ _ _ _ _ _ c rfl rfl

theorem relocate_of_ne (i : Nat) (c : Cell) (size : Int) (o : GameObject) (h : o.id ≠ i) :
    relocate i c size o = o := by
  simp [relocate, h]

@[simp] theorem relocate_id (i : Nat) (c : Cell) (size : Int) (o : GameObject) :
    (relocate i c size o).id = o.id := by
  unfold relocate; split <;> rfl

@[simp] theorem relocate_tag (i : Nat) (c : Cell) (size : Int) (o : GameObject) :
    (relocate i c size o).tag = o.tag := by
  unfold relocate; split <;> rfl

theorem map_relocate_of_absent (i : Nat) (c : Cell) (size : Int) (l : List GameObject)
    (h : ∀ o ∈ l, o.id ≠ i) : l.map (relocate i c size) = l := by
  induction l with
  | nil => rfl
  | cons a t ih =>
    simp only [List.map_cons]
    rw [relocate_of_ne i c size a (h a (by simp)), ih (fun o ho => h o (by simp [ho]))]

/-- Relocating the object with identity `i` either changes nothing (no such object) or
leaves the target cell occupied. -/
theorem relocate_occupies_or_same (i : Nat) (c : Cell) (L : Level) :
    L.objects.map (relocate i c SIZE) = L.objects ∨
    (({ L with objects := L.objects.map (relocate i c SIZE) } : Level).getObjectAtPosition
      c SIZE).isSome = true := by
  by_cases h : ∀ o ∈ L.objects, o.id ≠ i
  · exact Or.inl (map_relocate_of_absent i c SIZE _ h)
  · right
    push_neg at h
    obtain ⟨o, ho, hi⟩ := h
    simp only [Level.getObjectAtPosition, List.find?_isSome]
    exact ⟨relocate i c SIZE o, List.mem_map_of_mem _ ho, by simp [relocate_cell i c o hi]⟩

theorem makeObject_idem (tag : Int) (c : Cell) (L : Level) (hr : CellInRange c) :
    EditorLevel.makeObject tag c (EditorLevel.makeObject tag c L)
      = EditorLevel.makeObject tag c L := by
  cases hocc : L.getObjectAtPosition c SIZE with
  | some e =>
    rw [makeObject_of_occupied tag c L (by simp [hocc]),
      makeObject_of_occupied tag c L (by simp [hocc])]
  | none =>
    have key : ∀ L2 : Level, EditorLevel.makeObject tag c L = L2 →
        (L2 = L ∨ (L2.getObjectAtPosition c SIZE).isSome = true) →
        EditorLevel.makeObject tag c (EditorLevel.makeObject tag c L)
          = EditorLevel.makeObject tag c L := by
      intro L2 h2 hor
      rcases hor with h | h
      · subst h
        rw [h2, h2]
      · rw [h2]; exact makeObject_of_occupied tag c L2 h
    refine key _ rfl ?_
    rw [makeObject_of_empty tag c L hr hocc]
    have hc : ∀ i w h t b, GameObject.cell ⟨i, c.1 * SIZE, c.2 * SIZE, w, h, t, b⟩ SIZE = c :=
      fun i w h t b => cell_of_corner i _ _ w h t b c rfl rfl
    split_ifs with h1 h2 h3 h4 h5 h6 h7
    · -- move the player
      cases hp : L.mPlayer with
      | none => simp [hp] at h2
      | some i =>
        simp only [Level.movePlayer, hp]
        rcases relocate_occupies_or_same i c L with h | h
        · left; rw [h]; cases L; simp_all
        · right; exact h
    · right; exact addObject_occupies _ _ c (hc _ _ _ _ _)
    · cases hp : L.mGoal with
      | none => simp [hp] at h4
      | some i =>
        simp only [Level.moveGoal, hp]
        rcases relocate_occupies_or_same i c L with h | h
        · left; rw [h]; cases L; simp_all
        · right; exact h
    · right; exact addObject_occupies _ _ c (hc _ _ _ _ _)
    · right; exact addObject_occupies _ _ c (hc _ _ _ _ _)
    · right; exact addObject_occupies _ _ c (hc _ _ _ _ _)
    · right; exact addObject_occupies _ _ c (hc _ _ _ _ _)
    · left; rfl

end Editor

namespace Editor

/-! ## Consistency of identities and singleton references -/

theorem nodup_snoc {α : Type} (l : List α) (a : α) (h : l.Nodup) (ha : a ∉ l) :
    (l ++ [a]).Nodup := by
  rw [List.nodup_append]
  refine ⟨h, List.nodup_singleton _, ?_⟩
  intro x hx hx2
  simp at hx2
  subst hx2
  exact ha hx

theorem WF_empty : Level.empty.WF :=
  ⟨by simp [Level.empty], by simp [Level.empty], by simp [Level.empty],
   by simp [Level.empty], by simp [Level.empty], by simp [Level.empty]⟩

/-- In a consistent level an object's identity determines the object. -/
theorem Level.WF.eq_of_id_eq {L : Level} (hL : L.WF) {a b : GameObject}
    (ha : a ∈ L.objects) (hb : b ∈ L.objects) (h : a.id = b.id) : a = b :=
  List.inj_on_of_nodup_map hL.ids_nodup ha hb h

theorem Level.WF.player_iff {L : Level} (hL : L.WF) {i : Nat} (hi : L.mPlayer = some i)
    {o : GameObject} (ho : o ∈ L.objects) : o.id = i ↔ o.tag = TAG_PLAYER := by
  constructor
  · intro h
    obtain ⟨p, hp, hpi, hpt⟩ := hL.player_ref i hi
    have : o = p := hL.eq_of_id_eq ho hp (by rw [h, hpi])
    rw [this]; exact hpt
  · intro h
    have := hL.player_tag o ho h
    rw [hi] at this
    exact (Option.some.inj this).symm

theorem Level.WF.goal_iff {L : Level} (hL : L.WF) {i : Nat} (hi : L.mGoal = some i)
    {o : GameObject} (ho : o ∈ L.objects) : o.id = i ↔ o.tag = TAG_GOAL := by
  constructor
  · intro h
    obtain ⟨p, hp, hpi, hpt⟩ := hL.goal_ref i hi
    have : o = p := hL.eq_of_id_eq ho hp (by rw [h, hpi])
    rw [this]; exact hpt
  · intro h
    have := hL.goal_tag o ho h
    rw [hi] at this
    exact (Option.some.inj this).symm

/-- Appending a fresh object that carries no singleton tag keeps the level consistent. -/
theorem Level.WF.addObject_plain {L : Level} (hL : L.WF) (o : GameObject)
    (hid : o.id = L.nextId) (hp : o.tag ≠ TAG_PLAYER) (hg : o.tag ≠ TAG_GOAL) :
    (L.addObject o).WF := by
  refine ⟨?_, ?_, ?_, ?_, ?_, ?_⟩
  · intro a ha
    simp only [Level.addObject, List.mem_append, List.mem_singleton] at ha ⊢
    rcases ha with ha | ha
    · have := hL.ids_lt a ha; omega
    · subst ha; omega
  · simp only [Level.addObject, List.map_append, List.map_cons, List.map_nil]
    refine nodup_snoc _ _ hL.ids_nodup ?_
    intro hmem
    obtain ⟨a, ha, hai⟩ := List.mem_map.1 hmem
    have := hL.ids_lt a ha
    omega
  · intro i hi
    obtain ⟨a, ha, h1, h2⟩ := hL.player_ref i hi
    exact ⟨a, by simp [Level.addObject, ha], h1, h2⟩
  · intro a ha hat
    simp only [Level.addObject, List.mem_append, List.mem_singleton] at ha
    rcases ha with ha | ha
    · exact hL.player_tag a ha hat
    · subst ha; exact absurd hat hp
  · intro i hi
    obtain ⟨a, ha, h1, h2⟩ := hL.goal_ref i hi
    exact ⟨a, by simp [Level.addObject, ha], h1, h2⟩
  · intro a ha hat
    simp only [Level.addObject, List.mem_append, List.mem_singleton] at ha
    rcases ha with ha | ha
    · exact hL.goal_tag a ha hat
    · subst ha; exact absurd hat hg

/-- Creating the player when the player reference is null keeps the level consistent. -/
theorem Level.WF.addPlayer {L : Level} (hL : L.WF) (hnone : L.mPlayer = none) (x y : Int) :
    ((L.setPlayer (EditorPlayer L.nextId x y)).addObject (EditorPlayer L.nextId x y)).WF := by
  have hno : ∀ a ∈ L.objects, a.tag ≠ TAG_PLAYER := by
    intro a ha hat
    have := hL.player_tag a ha hat
    rw [hnone] at this
    exact Option.noConfusion this
  refine ⟨?_, ?_, ?_, ?_, ?_, ?_⟩
  · intro a ha
    simp only [Level.addObject, Level.setPlayer, List.mem_append, List.mem_singleton] at ha ⊢
    rcases ha with ha | ha
    · have := hL.ids_lt a ha; omega
    · subst ha; simp [EditorPlayer]
  · simp only [Level.addObject, Level.setPlayer, List.map_append, List.map_cons, List.map_nil]
    refine nodup_snoc _ _ hL.ids_nodup ?_
    intro hmem
    obtain ⟨a, ha, hai⟩ := List.mem_map.1 hmem
    have := hL.ids_lt a ha
    simp only [EditorPlayer] at hai
    omega
  · intro i hi
    simp only [Level.addObject, Level.setPlayer, EditorPlayer, Option.some.injEq] at hi
    exact ⟨EditorPlayer L.nextId x y, by simp [Level.addObject, Level.setPlayer],
      by simpa [EditorPlayer] using hi, rfl⟩
  · intro a ha hat
    simp only [Level.addObject, Level.setPlayer, List.mem_append, List.mem_singleton] at ha
    rcases ha with ha | ha
    · exact absurd hat (hno a ha)
    · subst ha; rfl
  · intro i hi
    obtain ⟨a, ha, h1, h2⟩ := hL.goal_ref i hi
    exact ⟨a, by simp [Level.addObject, Level.setPlayer, ha], h1, h2⟩
  · intro a ha hat
    simp only [Level.addObject, Level.setPlayer, List.mem_append, List.mem_singleton] at ha
    rcases ha with ha | ha
    · exact hL.goal_tag a ha hat
    · subst ha; exact absurd hat (by simp [EditorPlayer, EditorGoal, TAG_PLAYER, TAG_GOAL])

/-- Creating the goal when the goal reference is null keeps the level consistent. -/
theorem Level.WF.addGoal {L : Level} (hL : L.WF) (hnone : L.mGoal = none) (x y : Int) :
    ((L.setGoal (EditorGoal L.nextId x y)).addObject (EditorGoal L.nextId x y)).WF := by
  have hno : ∀ a ∈ L.objects, a.tag ≠ TAG_GOAL := by
    intro a ha hat
    have := hL.goal_tag a ha hat
    rw [hnone] at this
    exact Option.noConfusion this
  refine ⟨?_, ?_, ?_, ?_, ?_, ?_⟩
  · intro a ha
    simp only [Level.addObject, Level.setGoal, List.mem_append, List.mem_singleton] at ha ⊢
    rcases ha with ha | ha
    · have := hL.ids_lt a ha; omega
    · subst ha; simp [EditorGoal]
  · simp only [Level.addObject, Level.setGoal, List.map_append, List.map_cons, List.map_nil]
    refine nodup_snoc _ _ hL.ids_nodup ?_
    intro hmem
    obtain ⟨a, ha, hai⟩ := List.mem_map.1 hmem
    have := hL.ids_lt a ha
    simp only [EditorGoal] at hai
    omega
  · intro i hi
    obtain ⟨a, ha, h1, h2⟩ := hL.player_ref i hi
    exact ⟨a, by simp [Level.addObject, Level.setGoal, ha], h1, h2⟩
  · intro a ha hat
    simp only [Level.addObject, Level.setGoal, List.mem_append, List.mem_singleton] at ha
    rcases ha with ha | ha
    · exact hL.player_tag a ha hat
    · subst ha; exact absurd hat (by simp [EditorPlayer, EditorGoal, TAG_PLAYER, TAG_GOAL])
  · intro i hi
    simp only [Level.addObject, Level.setGoal, EditorGoal, Option.some.injEq] at hi
    exact ⟨EditorGoal L.nextId x y, by simp [Level.addObject, Level.setGoal],
      by simpa [EditorGoal] using hi, rfl⟩
  · intro a ha hat
    simp only [Level.addObject, Level.setGoal, List.mem_append, List.mem_singleton] at ha
    rcases ha with ha | ha
    · exact absurd hat (hno a ha)
    · subst ha; rfl

/-- Relocating objects keeps the level consistent: identities and tags stay. -/
theorem Level.WF.map_relocate {L : Level} (hL : L.WF) (i : Nat) (c : Cell) (size : Int) :
    ({ L with objects := L.objects.map (relocate i c size) } : Level).WF := by
  have hmem : ∀ a, a ∈ L.objects.map (relocate i c size) →
      ∃ b ∈ L.objects, b.id = a.id ∧ b.tag = a.tag := by
    intro a ha
    obtain ⟨b, hb, rfl⟩ := List.mem_map.1 ha
    exact ⟨b, hb, by simp, by simp⟩
  refine ⟨?_, ?_, ?_, ?_, ?_, ?_⟩
  · intro a ha
    obtain ⟨b, hb, h1, _⟩ := hmem a ha
    have := hL.ids_lt b hb
    simp only; omega
  · have : (L.objects.map (relocate i c size)).map (fun o => o.id)
        = L.objects.map (fun o => o.id) := by
      rw [List.map_map]; congr 1; funext o; simp
    simp only; rw [this]; exact hL.ids_nodup
  · intro j hj
    obtain ⟨a, ha, h1, h2⟩ := hL.player_ref j hj
    exact ⟨relocate i c size a, List.mem_map_of_mem _ ha, by simp [h1], by simp [h2]⟩
  · intro a ha hat
    obtain ⟨b, hb, h1, h2⟩ := hmem a ha
    have := hL.player_tag b hb (by rw [h2]; exact hat)
    simp only; rw [this, h1]
  · intro j hj
    obtain ⟨a, ha, h1, h2⟩ := hL.goal_ref j hj
    exact ⟨relocate i c size a, List.mem_map_of_mem _ ha, by simp [h1], by simp [h2]⟩
  · intro a ha hat
    obtain ⟨b, hb, h1, h2⟩ := hmem a ha
    have := hL.goal_tag b hb (by rw [h2]; exact hat)
    simp only; rw [this, h1]

end Editor

namespace Editor

theorem Level.WF.makeObject {L : Level} (hL : L.WF) (tag : Int) (c : Cell) :
    (EditorLevel.makeObject tag c L).WF := by
  cases hocc : L.getObjectAtPosition c SIZE with
  | some e => rw [makeObject_of_occupied tag c L (by simp [hocc])]; exact hL
  | none =>
    rw [makeObject_of_empty_gen tag c L hocc]
    split_ifs with h1 h2 h3 h4 h5 h6 h7
    · cases hp : L.mPlayer with
      | none => simp [hp] at h2
      | some i => simp only [Level.movePlayer, hp]; rw [← hp]; exact hL.map_relocate i c SIZE
    · exact hL.addPlayer (by simpa using h2) _ _
    · cases hp : L.mGoal with
      | none => simp [hp] at h4
      | some i => simp only [Level.moveGoal, hp]; rw [← hp]; exact hL.map_relocate i c SIZE
    · exact hL.addGoal (by simpa using h4) _ _
    · exact hL.addObject_plain _ rfl
        (by simp [EditorBlock, EditorEnemy, EditorCollectible, EditorObject, TAG_PLAYER,
          TAG_BLOCK, TAG_ENEMY, TAG_COLLECTIBLE])
        (by simp [EditorBlock, EditorEnemy, EditorCollectible, EditorObject, TAG_GOAL,
          TAG_BLOCK, TAG_ENEMY, TAG_COLLECTIBLE])
    · exact hL.addObject_plain _ rfl
        (by simp [EditorBlock, EditorEnemy, EditorCollectible, EditorObject, TAG_PLAYER,
          TAG_BLOCK, TAG_ENEMY, TAG_COLLECTIBLE])
        (by simp [EditorBlock, EditorEnemy, EditorCollectible, EditorObject, TAG_GOAL,
          TAG_BLOCK, TAG_ENEMY, TAG_COLLECTIBLE])
    · exact hL.addObject_plain _ rfl
        (by simp [EditorBlock, EditorEnemy, EditorCollectible, EditorObject, TAG_PLAYER,
          TAG_BLOCK, TAG_ENEMY, TAG_COLLECTIBLE])
        (by simp [EditorBlock, EditorEnemy, EditorCollectible, EditorObject, TAG_GOAL,
          TAG_BLOCK, TAG_ENEMY, TAG_COLLECTIBLE])
    · exact hL

theorem Level.WF.removeObjectAtMouse {L : Level} (hL : L.WF) (c : Cell) (size : Int) :
    (L.removeObjectAtMouse c size).WF := by
  unfold Level.removeObjectAtMouse
  cases hocc : L.getObjectAtPosition c size with
  | none => exact hL
  | some e =>
    have he : e ∈ L.objects := (getObjectAtPosition_some_mem hocc).1
    have hnd : L.objects.Nodup := List.Nodup.of_map _ hL.ids_nodup
    have hmem : ∀ a, a ∈ L.objects.erase e ↔ a ≠ e ∧ a ∈ L.objects :=
      fun a => List.Nodup.mem_erase_iff hnd
    refine ⟨?_, ?_, ?_, ?_, ?_, ?_⟩
    · intro a ha
      exact hL.ids_lt a ((hmem a).1 ha).2
    · exact List.Nodup.sublist ((List.erase_sublist e L.objects).map _) hL.ids_nodup
    · intro i hi
      simp only at hi
      split_ifs at hi with h
      obtain ⟨a, ha, h1, h2⟩ := hL.player_ref i hi
      refine ⟨a, (hmem a).2 ⟨?_, ha⟩, h1, h2⟩
      intro hae
      apply h
      rw [hi, ← h1, hae]
    · intro a ha hat
      obtain ⟨hne, ha⟩ := (hmem a).1 ha
      have h := hL.player_tag a ha hat
      simp only
      rw [if_neg]
      · exact h
      · intro h2
        rw [h] at h2
        exact hne (hL.eq_of_id_eq ha he (Option.some.inj h2))
    · intro i hi
      simp only at hi
      split_ifs at hi with h
      obtain ⟨a, ha, h1, h2⟩ := hL.goal_ref i hi
      refine ⟨a, (hmem a).2 ⟨?_, ha⟩, h1, h2⟩
      intro hae
      apply h
      rw [hi, ← h1, hae]
    · intro a ha hat
      obtain ⟨hne, ha⟩ := (hmem a).1 ha
      have h := hL.goal_tag a ha hat
      simp only
      rw [if_neg]
      · exact h
      · intro h2
        rw [h] at h2
        exact hne (hL.eq_of_id_eq ha he (Option.some.inj h2))

theorem Level.WF.exec {L : Level} (hL : L.WF) (call : Call) : (L.exec call).WF := by
  cases call with
  | makeObject tag position => exact hL.makeObject tag position
  | removeObjectAtMouse position => exact hL.removeObjectAtMouse position SIZE
  | exportAndSave => exact hL
  | addEditorObject =>
    exact hL.addObject_plain (EditorObject L.nextId) rfl
        (by simp [EditorBlock, EditorEnemy, EditorCollectible, EditorObject, TAG_PLAYER,
          TAG_BLOCK, TAG_ENEMY, TAG_COLLECTIBLE])
        (by simp [EditorBlock, EditorEnemy, EditorCollectible, EditorObject, TAG_GOAL,
          TAG_BLOCK, TAG_ENEMY, TAG_COLLECTIBLE])

theorem Level.WF.run {L : Level} (hL : L.WF) (cs : List Call) : (L.run cs).WF := by
  induction cs generalizing L with
  | nil => exact hL
  | cons a t ih => exact ih (hL.exec a)

/-- In a consistent level at most one object carries the player tag. -/
theorem Level.WF.withTag_player_le {L : Level} (hL : L.WF) :
    (L.withTag TAG_PLAYER).length ≤ 1 := by
  have hnd : (L.withTag TAG_PLAYER).Nodup :=
    List.Nodup.sublist (List.filter_sublist _) (List.Nodup.of_map _ hL.ids_nodup)
  match h : L.withTag TAG_PLAYER with
  | [] => simp
  | [_] => simp
  | a :: b :: t =>
    exfalso
    have ha : a ∈ L.withTag TAG_PLAYER := by rw [h]; simp
    have hb : b ∈ L.withTag TAG_PLAYER := by rw [h]; simp
    simp only [Level.withTag, List.mem_filter, decide_eq_true_eq] at ha hb
    have h1 := hL.player_tag a ha.1 ha.2
    have h2 := hL.player_tag b hb.1 hb.2
    have hab : a = b := hL.eq_of_id_eq ha.1 hb.1 (Option.some.inj (h1.symm.trans h2))
    rw [h, hab] at hnd
    simp at hnd

/-- In a consistent level at most one object carries the goal tag. -/
theorem Level.WF.withTag_goal_le {L : Level} (hL : L.WF) :
    (L.withTag TAG_GOAL).length ≤ 1 := by
  have hnd : (L.withTag TAG_GOAL).Nodup :=
    List.Nodup.sublist (List.filter_sublist _) (List.Nodup.of_map _ hL.ids_nodup)
  match h : L.withTag TAG_GOAL with
  | [] => simp
  | [_] => simp
  | a :: b :: t =>
    exfalso
    have ha : a ∈ L.withTag TAG_GOAL := by rw [h]; simp
    have hb : b ∈ L.withTag TAG_GOAL := by rw [h]; simp
    simp only [Level.withTag, List.mem_filter, decide_eq_true_eq] at ha hb
    have h1 := hL.goal_tag a ha.1 ha.2
    have h2 := hL.goal_tag b hb.1 hb.2
    have hab : a = b := hL.eq_of_id_eq ha.1 hb.1 (Option.some.inj (h1.symm.trans h2))
    rw [h, hab] at hnd
    simp at hnd

end Editor

namespace Editor

/-! ## No two objects in one cell -/

theorem cells_nodup_relocate (i : Nat) (c : Cell) (l : List GameObject)
    (hid : (l.map (fun o => o.id)).Nodup)
    (hcell : (l.map (fun o => o.cell SIZE)).Nodup)
    (hc : ∀ o ∈ l, o.cell SIZE ≠ c) :
    ((l.map (relocate i c SIZE)).map (fun o => o.cell SIZE)).Nodup := by
  induction l with
  | nil => simp
  | cons a t ih =>
    simp only [List.map_cons, List.nodup_cons, List.mem_map, not_exists, not_and] at hid hcell ⊢
    have hct : ∀ o ∈ t, o.cell SIZE ≠ c := fun o ho => hc o (by simp [ho])
    refine ⟨?_, ih hid.2 hcell.2 hct⟩
    rintro o' ⟨o, ho, rfl⟩
    by_cases ha : a.id = i
    · have hoi : o.id ≠ i := fun h => hid.1 o ho (by rw [h, ha])
      rw [relocate_of_ne i c SIZE o hoi, relocate_cell i c a ha]
      exact hct o ho
    · rw [relocate_of_ne i c SIZE a ha]
      by_cases hoi : o.id = i
      · rw [relocate_cell i c o hoi]
        exact fun h => hc a (by simp) h.symm
      · rw [relocate_of_ne i c SIZE o hoi]
        exact hcell.1 o ho

theorem cells_nodup_makeObject {L : Level} (hL : L.WF)
    (hcell : (L.objects.map (fun o => o.cell SIZE)).Nodup) (tag : Int) (c : Cell)
    (hr : CellInRange c) :
    ((EditorLevel.makeObject tag c L).objects.map (fun o => o.cell SIZE)).Nodup := by
  cases hocc : L.getObjectAtPosition c SIZE with
  | some e => rw [makeObject_of_occupied tag c L (by simp [hocc])]; exact hcell
  | none =>
    have hfree := getObjectAtPosition_eq_none.1 hocc
    have hadd : ∀ o : GameObject, o.cell SIZE = c →
        ((L.objects ++ [o]).map (fun o => o.cell SIZE)).Nodup := by
      intro o ho
      rw [List.map_append]
      refine nodup_snoc _ _ hcell ?_
      simp only [List.map_cons, List.map_nil, List.mem_map, not_exists, not_and]
      intro a ha
      rw [ho]; exact hfree a ha
    have hc : ∀ i w h t b, GameObject.cell ⟨i, c.1 * SIZE, c.2 * SIZE, w, h, t, b⟩ SIZE = c :=
      fun i w h t b => cell_of_corner i _ _ w h t b c rfl rfl
    rw [makeObject_of_empty tag c L hr hocc]
    split_ifs with h1 h2 h3 h4 h5 h6 h7
    · cases hp : L.mPlayer with
      | none => simp [hp] at h2
      | some i =>
        simp only [Level.movePlayer, hp]
        exact cells_nodup_relocate i c _ hL.ids_nodup hcell hfree
    · exact hadd _ (hc _ _ _ _ _)
    · cases hp : L.mGoal with
      | none => simp [hp] at h4
      | some i =>
        simp only [Level.moveGoal, hp]
        exact cells_nodup_relocate i c _ hL.ids_nodup hcell hfree
    · exact hadd _ (hc _ _ _ _ _)
    · exact hadd _ (hc _ _ _ _ _)
    · exact hadd _ (hc _ _ _ _ _)
    · exact hadd _ (hc _ _ _ _ _)
    · exact hcell

theorem cells_nodup_removeObjectAtMouse {L : Level}
    (hcell : (L.objects.map (fun o => o.cell SIZE)).Nodup) (c : Cell) (size : Int) :
    ((L.removeObjectAtMouse c size).objects.map (fun o => o.cell SIZE)).Nodup := by
  unfold Level.removeObjectAtMouse
  cases hocc : L.getObjectAtPosition c size with
  | none => exact hcell
  | some e => exact List.Nodup.sublist ((List.erase_sublist e L.objects).map _) hcell

/-- Consistency and cell-uniqueness hold after every sequence of edit operations. -/
theorem edit_run_invariant (ops : List EditOp) (L : Level) (hL : L.WF)
    (hcell : (L.objects.map (fun o => o.cell SIZE)).Nodup)
    (hops : ∀ op ∈ ops, op.InRange) :
    (L.run (ops.map EditOp.toCall)).WF ∧
    ((L.run (ops.map EditOp.toCall)).objects.map (fun o => o.cell SIZE)).Nodup := by
  induction ops generalizing L with
  | nil => exact ⟨hL, hcell⟩
  | cons op t ih =>
    simp only [List.map_cons, Level.run, List.foldl_cons]
    have hops2 : ∀ o ∈ t, o.InRange := fun o ho => hops o (by simp [ho])
    have hop : op.InRange := hops op (by simp)
    cases op with
    | place tag cell =>
      exact ih _ (hL.makeObject tag cell) (cells_nodup_makeObject hL hcell tag cell hop)
        hops2
    | removeAt cell =>
      exact ih _ (hL.removeObjectAtMouse cell SIZE)
        (cells_nodup_removeObjectAtMouse hcell cell SIZE) hops2

end Editor

namespace Editor

/-! ## Placing a singleton -/

/-- Placing the player on an empty cell of a consistent level: afterwards the player
reference is set, the referenced object sits on the cell, every other object is an
unchanged object of the level before, and the goal reference is untouched. -/
theorem makeObject_player_spec {L : Level} (hL : L.WF) (c : Cell) (hr : CellInRange c)
    (hempty : L.getObjectAtPosition c SIZE = none) :
    ∃ i, (EditorLevel.makeObject TAG_PLAYER c L).mPlayer = some i ∧
      (EditorLevel.makeObject TAG_PLAYER c L).mGoal = L.mGoal ∧
      (∃ p ∈ (EditorLevel.makeObject TAG_PLAYER c L).objects, p.id = i ∧ p.cell SIZE = c) ∧
      (∀ o ∈ (EditorLevel.makeObject TAG_PLAYER c L).objects, o.id ≠ i → o ∈ L.objects) ∧
      (∀ j, L.mPlayer = some j → i = j ∧
        (EditorLevel.makeObject TAG_PLAYER c L).objects
          = L.objects.map (relocate j c SIZE)) := by
  rw [makeObject_of_empty TAG_PLAYER c L hr hempty]
  simp only [if_true]
  cases hp : L.mPlayer with
  | some i =>
    simp only [Option.isSome_some, if_true, Level.movePlayer, hp]
    obtain ⟨p, hpm, hpi, -⟩ := hL.player_ref i hp
    refine ⟨i, rfl, trivial, ⟨relocate i c SIZE p, List.mem_map_of_mem _ hpm, by simp [hpi],
      relocate_cell i c p hpi⟩, ?_, ?_⟩
    · intro o ho hoi
      obtain ⟨o', ho', rfl⟩ := List.mem_map.1 ho
      rw [relocate_id] at hoi
      rw [relocate_of_ne i c SIZE o' hoi]; exact ho'
    · intro j hj
      cases hj
      exact ⟨rfl, rfl⟩
  | none =>
    simp only [Option.isSome_none, Bool.false_eq_true, if_false]
    refine ⟨L.nextId, rfl, rfl, ⟨EditorPlayer L.nextId (c.1 * SIZE) (c.2 * SIZE),
      by simp [Level.addObject, Level.setPlayer], rfl,
      cell_of_corner _ _ _ _ _ _ _ c rfl rfl⟩, ?_, ?_⟩
    · intro o ho hoi
      simp only [Level.addObject, Level.setPlayer, List.mem_append, List.mem_singleton] at ho
      rcases ho with ho | ho
      · exact ho
      · subst ho; exact absurd rfl hoi
    · intro j hj
      exact Option.noConfusion hj

/-- Placing the goal on an empty cell of a consistent level, see
`makeObject_player_spec`. -/
theorem makeObject_goal_spec {L : Level} (hL : L.WF) (c : Cell) (hr : CellInRange c)
    (hempty : L.getObjectAtPosition c SIZE = none) :
    ∃ i, (EditorLevel.makeObject TAG_GOAL c L).mGoal = some i ∧
      (EditorLevel.makeObject TAG_GOAL c L).mPlayer = L.mPlayer ∧
      (∃ p ∈ (EditorLevel.makeObject TAG_GOAL c L).objects, p.id = i ∧ p.cell SIZE = c) ∧
      (∀ o ∈ (EditorLevel.makeObject TAG_GOAL c L).objects, o.id ≠ i → o ∈ L.objects) ∧
      (∀ j, L.mGoal = some j → i = j ∧
        (EditorLevel.makeObject TAG_GOAL c L).objects
          = L.objects.map (relocate j c SIZE)) := by
  rw [makeObject_of_empty TAG_GOAL c L hr hempty]
  simp only [show ¬ (TAG_GOAL = TAG_PLAYER) by decide, if_false, if_true]
  cases hp : L.mGoal with
  | some i =>
    simp only [Option.isSome_some, if_true, Level.moveGoal, hp]
    obtain ⟨p, hpm, hpi, -⟩ := hL.goal_ref i hp
    refine ⟨i, rfl, trivial, ⟨relocate i c SIZE p, List.mem_map_of_mem _ hpm, by simp [hpi],
      relocate_cell i c p hpi⟩, ?_, ?_⟩
    · intro o ho hoi
      obtain ⟨o', ho', rfl⟩ := List.mem_map.1 ho
      rw [relocate_id] at hoi
      rw [relocate_of_ne i c SIZE o' hoi]; exact ho'
    · intro j hj
      cases hj
      exact ⟨rfl, rfl⟩
  | none =>
    simp only [Option.isSome_none, Bool.false_eq_true, if_false]
    refine ⟨L.nextId, rfl, rfl, ⟨EditorGoal L.nextId (c.1 * SIZE) (c.2 * SIZE),
      by simp [Level.addObject, Level.setGoal], rfl,
      cell_of_corner _ _ _ _ _ _ _ c rfl rfl⟩, ?_, ?_⟩
    · intro o ho hoi
      simp only [Level.addObject, Level.setGoal, List.mem_append, List.mem_singleton] at ho
      rcases ho with ho | ho
      · exact ho
      · subst ho; exact absurd rfl hoi
    · intro j hj
      exact Option.noConfusion hj

/-- In a consistent level with the player reference set, exactly one object carries the
player tag, and it is the referenced one. -/
theorem Level.WF.withTag_player_eq {L : Level} (hL : L.WF) {i : Nat}
    (hi : L.mPlayer = some i) : ∃ o, L.withTag TAG_PLAYER = [o] ∧ o.id = i := by
  obtain ⟨p, hpm, hpi, hpt⟩ := hL.player_ref i hi
  have hmem : p ∈ L.withTag TAG_PLAYER := by
    simp [Level.withTag, List.mem_filter, hpm, hpt]
  have hle := hL.withTag_player_le
  match h : L.withTag TAG_PLAYER with
  | [] => rw [h] at hmem; simp at hmem
  | [o] =>
    rw [h] at hmem
    simp only [List.mem_singleton] at hmem
    exact ⟨o, rfl, by rw [← hmem]; exact hpi⟩
  | a :: b :: t => rw [h] at hle; simp at hle

/-- In a consistent level with the goal reference set, exactly one object carries the
goal tag, and it is the referenced one. -/
theorem Level.WF.withTag_goal_eq {L : Level} (hL : L.WF) {i : Nat}
    (hi : L.mGoal = some i) : ∃ o, L.withTag TAG_GOAL = [o] ∧ o.id = i := by
  obtain ⟨p, hpm, hpi, hpt⟩ := hL.goal_ref i hi
  have hmem : p ∈ L.withTag TAG_GOAL := by
    simp [Level.withTag, List.mem_filter, hpm, hpt]
  have hle := hL.withTag_goal_le
  match h : L.withTag TAG_GOAL with
  | [] => rw [h] at hmem; simp at hmem
  | [o] =>
    rw [h] at hmem
    simp only [List.mem_singleton] at hmem
    exact ⟨o, rfl, by rw [← hmem]; exact hpi⟩
  | a :: b :: t => rw [h] at hle; simp at hle

end Editor

namespace Editor

theorem place_player_twice {L : Level} (hL : L.WF) (c1 c2 : Cell)
    (hr1 : CellInRange c1) (hr2 : CellInRange c2)
    (h1 : L.getObjectAtPosition c1 SIZE = none)
    (h2 : (EditorLevel.makeObject TAG_PLAYER c1 L).getObjectAtPosition c2 SIZE = none) :
    ∃ o,
      (EditorLevel.makeObject TAG_PLAYER c2
        (EditorLevel.makeObject TAG_PLAYER c1 L)).withTag TAG_PLAYER = [o] ∧
      o.cell SIZE = c2 ∧
      (EditorLevel.makeObject TAG_PLAYER c2
        (EditorLevel.makeObject TAG_PLAYER c1 L)).getObjectAtPosition c1 SIZE = none ∧
      (EditorLevel.makeObject TAG_PLAYER c2
        (EditorLevel.makeObject TAG_PLAYER c1 L)).objects.length
        = (EditorLevel.makeObject TAG_PLAYER c1 L).objects.length ∧
      (EditorLevel.makeObject TAG_PLAYER c2
        (EditorLevel.makeObject TAG_PLAYER c1 L)).mPlayer
        = (EditorLevel.makeObject TAG_PLAYER c1 L).mPlayer ∧
      (EditorLevel.makeObject TAG_PLAYER c2
        (EditorLevel.makeObject TAG_PLAYER c1 L)).mPlayer = some o.id ∧
      (EditorLevel.makeObject TAG_PLAYER c2
        (EditorLevel.makeObject TAG_PLAYER c1 L)).mGoal = L.mGoal := by
  obtain ⟨i, hi, hg, ⟨p, hpm, hpi, hpc⟩, hothers, -⟩ := makeObject_player_spec hL c1 hr1 h1
  have hL1 := hL.makeObject TAG_PLAYER c1
  obtain ⟨i', hi', hg', ⟨p', hpm', hpi', hpc'⟩, hothers', hmove⟩ :=
    makeObject_player_spec hL1 c2 hr2 h2
  obtain ⟨hii, hobjs⟩ := hmove i hi
  subst hii
  have hL2 := hL1.makeObject TAG_PLAYER c2
  obtain ⟨o, ho, hoid⟩ := hL2.withTag_player_eq hi'
  have hom : o ∈ (EditorLevel.makeObject TAG_PLAYER c2
      (EditorLevel.makeObject TAG_PLAYER c1 L)).objects := by
    have : o ∈ (EditorLevel.makeObject TAG_PLAYER c2
        (EditorLevel.makeObject TAG_PLAYER c1 L)).withTag TAG_PLAYER := by rw [ho]; simp
    exact (List.mem_filter.1 this).1
  have hop : o = p' := hL2.eq_of_id_eq hom hpm' (by rw [hoid, hpi'])
  have hne : c2 ≠ c1 := by
    intro h
    exact getObjectAtPosition_eq_none.1 h2 p hpm (by rw [hpc, h])
  refine ⟨o, ho, by rw [hop]; exact hpc', ?_, ?_, ?_, ?_, ?_⟩
  · rw [getObjectAtPosition_eq_none]
    intro a ha
    by_cases hai : a.id = i'
    · have : a = p' := hL2.eq_of_id_eq ha hpm' (by rw [hai, hpi'])
      rw [this, hpc']; exact hne
    · exact getObjectAtPosition_eq_none.1 h1 a (hothers a (hothers' a ha hai) hai)
  · rw [hobjs, List.length_map]
  · rw [hi', hi]
  · rw [hi', hoid]
  · rw [hg', hg]

theorem place_goal_twice {L : Level} (hL : L.WF) (c1 c2 : Cell)
    (hr1 : CellInRange c1) (hr2 : CellInRange c2)
    (h1 : L.getObjectAtPosition c1 SIZE = none)
    (h2 : (EditorLevel.makeObject TAG_GOAL c1 L).getObjectAtPosition c2 SIZE = none) :
    ∃ o,
      (EditorLevel.makeObject TAG_GOAL c2
        (EditorLevel.makeObject TAG_GOAL c1 L)).withTag TAG_GOAL = [o] ∧
      o.cell SIZE = c2 ∧
      (EditorLevel.makeObject TAG_GOAL c2
        (EditorLevel.makeObject TAG_GOAL c1 L)).getObjectAtPosition c1 SIZE = none ∧
      (EditorLevel.makeObject TAG_GOAL c2
        (EditorLevel.makeObject TAG_GOAL c1 L)).objects.length
        = (EditorLevel.makeObject TAG_GOAL c1 L).objects.length ∧
      (EditorLevel.makeObject TAG_GOAL c2
        (EditorLevel.makeObject TAG_GOAL c1 L)).mGoal
        = (EditorLevel.makeObject TAG_GOAL c1 L).mGoal ∧
      (EditorLevel.makeObject TAG_GOAL c2
        (EditorLevel.makeObject TAG_GOAL c1 L)).mGoal = some o.id ∧
      (EditorLevel.makeObject TAG_GOAL c2
        (EditorLevel.makeObject TAG_GOAL c1 L)).mPlayer = L.mPlayer := by
  obtain ⟨i, hi, hg, ⟨p, hpm, hpi, hpc⟩, hothers, -⟩ := makeObject_goal_spec hL c1 hr1 h1
  have hL1 := hL.makeObject TAG_GOAL c1
  obtain ⟨i', hi', hg', ⟨p', hpm', hpi', hpc'⟩, hothers', hmove⟩ :=
    makeObject_goal_spec hL1 c2 hr2 h2
  obtain ⟨hii, hobjs⟩ := hmove i hi
  subst hii
  have hL2 := hL1.makeObject TAG_GOAL c2
  obtain ⟨o, ho, hoid⟩ := hL2.withTag_goal_eq hi'
  have hom : o ∈ (EditorLevel.makeObject TAG_GOAL c2
      (EditorLevel.makeObject TAG_GOAL c1 L)).objects := by
    have : o ∈ (EditorLevel.makeObject TAG_GOAL c2
        (EditorLevel.makeObject TAG_GOAL c1 L)).withTag TAG_GOAL := by rw [ho]; simp
    exact (List.mem_filter.1 this).1
  have hop : o = p' := hL2.eq_of_id_eq hom hpm' (by rw [hoid, hpi'])
  have hne : c2 ≠ c1 := by
    intro h
    exact getObjectAtPosition_eq_none.1 h2 p hpm (by rw [hpc, h])
  refine ⟨o, ho, by rw [hop]; exact hpc', ?_, ?_, ?_, ?_, ?_⟩
  · rw [getObjectAtPosition_eq_none]
    intro a ha
    by_cases hai : a.id = i'
    · have : a = p' := hL2.eq_of_id_eq ha hpm' (by rw [hai, hpi'])
      rw [this, hpc']; exact hne
    · exact getObjectAtPosition_eq_none.1 h1 a (hothers a (hothers' a ha hai) hai)
  · rw [hobjs, List.length_map]
  · rw [hi', hi]
  · rw [hi', hoid]
  · rw [hg', hg]

end Editor

namespace Editor

/-! ## The layout loop as a scan -/

theorem charCalls_eq_scanStep (ch : Char) (x y : Int) :
    EditorLevel.charCalls ch x y = scanStep (ch, (x, y)) := by
  unfold EditorLevel.charCalls scanStep symbolTag
  by_cases hO : ch = 'O'
  · subst hO; simp
  by_cases hP : ch = 'P'
  · subst hP; simp
  by_cases hG : ch = 'G'
  · subst hG; simp
  by_cases hE : ch = 'E'
  · subst hE; simp
  by_cases hC : ch = 'C'
  · subst hC; simp
  simp [hO, hP, hG, hE, hC]

theorem rowCalls_eq_scan (row : List Char) (n : Nat) (y : Int)
    (hn : n + row.length ≤ 16777217) :
    EditorLevel.rowCalls row (n : Int) y
      = ((row.enumFrom n).map fun jc => (jc.2, ((jc.1 : Int), y))).flatMap scanStep := by
  induction row generalizing n with
  | nil => simp [EditorLevel.rowCalls]
  | cons ch rest ih =>
    simp only [EditorLevel.rowCalls, List.enumFrom_cons, List.map_cons, List.flatMap_cons]
    rw [charCalls_eq_scanStep]
    simp only [List.length_cons] at hn
    cases rest with
    | nil => simp [EditorLevel.rowCalls]
    | cons ch2 rest2 =>
      simp only [List.length_cons] at hn
      rw [f32_succ (n : Int) (by omega) (by omega),
        ← ih (n + 1) (by simp only [List.length_cons]; omega)]
      push_cast
      rfl

theorem layoutCalls_eq_scan (rows : List (List Char)) (m : Nat)
    (hm : m + rows.length ≤ 16777217) (hrows : ∀ row ∈ rows, row.length ≤ 16777217) :
    EditorLevel.layoutCalls rows (m : Int)
      = ((rows.enumFrom m).flatMap fun ir =>
          ir.2.enum.map fun jc => (jc.2, ((jc.1 : Int), (ir.1 : Int)))).flatMap scanStep := by
  induction rows generalizing m with
  | nil => simp [EditorLevel.layoutCalls]
  | cons row rest ih =>
    simp only [EditorLevel.layoutCalls, List.enumFrom_cons, List.flatMap_cons,
      List.flatMap_append]
    simp only [List.length_cons] at hm
    have hrow := rowCalls_eq_scan row 0 (m : Int) (by have := hrows row (by simp); omega)
    simp only [Nat.cast_zero] at hrow
    rw [hrow]
    cases rest with
    | nil => simp [EditorLevel.layoutCalls, List.enum]
    | cons row2 rest2 =>
      simp only [List.length_cons] at hm
      rw [f32_succ (m : Int) (by omega) (by omega),
        ← ih (m + 1) (by simp only [List.length_cons]; omega)
          (fun r hr => hrows r (List.mem_cons_of_mem _ hr))]
      push_cast
      rfl

/-- The calls of the layout loop are those of the scanned characters, in scan order, as
long as the `float` counters count exactly. -/
theorem initializeCalls_eq_scan (layout : List (List Char))
    (h : LayoutWithin 16777217 layout) :
    EditorLevel.initializeCalls layout = (scanCells layout).flatMap scanStep := by
  have := layoutCalls_eq_scan layout 0 (by have := h.1; omega) h.2
  simp only [Nat.cast_zero] at this
  exact this

/-- Whatever the counters hold, a row makes the calls of one scan step per character. -/
theorem rowCalls_steps (row : List Char) (x y : Int) :
    ∃ l : List (Char × Cell), l.length = row.length ∧
      EditorLevel.rowCalls row x y = l.flatMap scanStep := by
  induction row generalizing x with
  | nil => exact ⟨[], rfl, rfl⟩
  | cons ch rest ih =>
    obtain ⟨l, hl, hc⟩ := ih (f32 (x + 1))
    refine ⟨(ch, (x, y)) :: l, by simp [hl], ?_⟩
    simp only [EditorLevel.rowCalls, List.flatMap_cons, charCalls_eq_scanStep, hc]

/-- Whatever the counters hold, a layout makes the calls of one scan step per
character. -/
theorem layoutCalls_steps (rows : List (List Char)) (y : Int) :
    ∃ l : List (Char × Cell), l.length = layoutSize rows ∧
      EditorLevel.layoutCalls rows y = l.flatMap scanStep := by
  induction rows generalizing y with
  | nil => exact ⟨[], rfl, rfl⟩
  | cons row rest ih =>
    obtain ⟨l2, hl2, hc2⟩ := ih (f32 (y + 1))
    obtain ⟨l1, hl1, hc1⟩ := rowCalls_steps row 0 y
    refine ⟨l1 ++ l2, ?_, ?_⟩
    · simp only [layoutSize] at hl2 ⊢
      simp [hl1, hl2]
    · simp only [EditorLevel.layoutCalls, List.flatMap_append, hc1, hc2]

end Editor

namespace Editor

theorem scanStep_filter_makeObject (p : Char × Cell) :
    (scanStep p).filter Call.isMakeObject
      = ((symbolTag p.1).map fun tag => Call.makeObject tag p.2).toList := by
  unfold scanStep
  cases symbolTag p.1 <;> simp [Call.isMakeObject]

theorem flatMap_scanStep_filter_makeObject (l : List (Char × Cell)) :
    (l.flatMap scanStep).filter Call.isMakeObject
      = l.filterMap fun p => (symbolTag p.1).map fun tag => Call.makeObject tag p.2 := by
  induction l with
  | nil => rfl
  | cons p t ih =>
    rw [List.flatMap_cons, List.filter_append, ih, scanStep_filter_makeObject,
      List.filterMap_cons]
    cases symbolTag p.1 <;> simp

theorem scanStep_count_addEditorObject (p : Char × Cell) :
    (scanStep p).count Call.addEditorObject = 1 := by
  unfold scanStep
  cases symbolTag p.1 <;> simp [List.count_cons]

theorem flatMap_scanStep_count (l : List (Char × Cell)) :
    (l.flatMap scanStep).count Call.addEditorObject = l.length := by
  induction l with
  | nil => rfl
  | cons p t ih =>
    rw [List.flatMap_cons, List.count_append, ih, scanStep_count_addEditorObject,
      List.length_cons]
    omega

theorem enumFrom_scan_length (rows : List (List Char)) (m : Nat) :
    ((rows.enumFrom m).flatMap fun ir =>
      ir.2.enum.map fun jc => (jc.2, ((jc.1 : Int), (ir.1 : Int)))).length
      = (rows.map List.length).sum := by
  induction rows generalizing m with
  | nil => rfl
  | cons row rest ih =>
    simp only [List.enumFrom_cons, List.flatMap_cons, List.length_append, List.length_map,
      List.map_cons, List.sum_cons, ih (m + 1), List.enum_length]

theorem scanCells_length (layout : List (List Char)) :
    (scanCells layout).length = layoutSize layout :=
  enumFrom_scan_length layout 0

end Editor

namespace Editor

/-! ## Input controllers added by the layout loop -/

theorem filter_map_of_fixed {α : Type} (p : α → Bool) (f : α → α) (l : List α)
    (hp : ∀ a ∈ l, p (f a) = p a) (hf : ∀ a ∈ l, p a = true → f a = a) :
    (l.map f).filter p = l.filter p := by
  induction l with
  | nil => rfl
  | cons a t ih =>
    have iht := ih (fun b hb => hp b (by simp [hb])) (fun b hb => hf b (by simp [hb]))
    simp only [List.map_cons, List.filter_cons, hp a (by simp), iht]
    cases hpa : p a with
    | true => simp [hf a (by simp) hpa]
    | false => simp

/-- Objects that do not carry a singleton tag are left alone by a relocation of the
player in a consistent level. -/
theorem Level.WF.relocate_player_other {L : Level} (hL : L.WF) {i : Nat}
    (hi : L.mPlayer = some i) (c : Cell) (size : Int) {o : GameObject} (ho : o ∈ L.objects)
    (ht : o.tag ≠ TAG_PLAYER) : relocate i c size o = o :=
  relocate_of_ne i c size o (fun h => ht ((hL.player_iff hi ho).1 h))

theorem Level.WF.relocate_goal_other {L : Level} (hL : L.WF) {i : Nat}
    (hi : L.mGoal = some i) (c : Cell) (size : Int) {o : GameObject} (ho : o ∈ L.objects)
    (ht : o.tag ≠ TAG_GOAL) : relocate i c size o = o :=
  relocate_of_ne i c size o (fun h => ht ((hL.goal_iff hi ho).1 h))

/-- The objects of a tag that is not among the five are untouched by `makeObject`. -/
theorem Level.WF.makeObject_withTag_other {L : Level} (hL : L.WF) (tag : Int) (c : Cell)
    (t0 : Int) (h0 : isEntityTag t0 = false) :
    (EditorLevel.makeObject tag c L).withTag t0 = L.withTag t0 := by
  simp only [isEntityTag, decide_eq_false_iff_not, not_or] at h0
  obtain ⟨n1, n2, n3, n4, n5⟩ := h0
  cases hocc : L.getObjectAtPosition c SIZE with
  | some e => rw [makeObject_of_occupied tag c L (by simp [hocc])]
  | none =>
    have hadd : ∀ o : GameObject, o.tag ≠ t0 →
        (L.objects ++ [o]).filter (fun o => decide (o.tag = t0))
          = L.objects.filter (fun o => decide (o.tag = t0)) := by
      intro o ho
      simp [List.filter_append, ho]
    rw [makeObject_of_empty_gen tag c L hocc]
    unfold Level.withTag
    split_ifs with h1 h2 h3 h4 h5 h6 h7
    · cases hp : L.mPlayer with
      | none => simp [hp] at h2
      | some i =>
        simp only [Level.movePlayer, hp]
        refine filter_map_of_fixed _ _ _ (fun a _ => by simp) ?_
        intro a ha hat
        simp only [decide_eq_true_eq] at hat
        exact hL.relocate_player_other hp c SIZE ha (by rw [hat]; exact n1)
    · exact hadd _ (fun h => n1 h.symm)
    · cases hp : L.mGoal with
      | none => simp [hp] at h4
      | some i =>
        simp only [Level.moveGoal, hp]
        refine filter_map_of_fixed _ _ _ (fun a _ => by simp) ?_
        intro a ha hat
        simp only [decide_eq_true_eq] at hat
        exact hL.relocate_goal_other hp c SIZE ha (by rw [hat]; exact n2)
    · exact hadd _ (fun h => n2 h.symm)
    · exact hadd _ (fun h => n3 h.symm)
    · exact hadd _ (fun h => n4 h.symm)
    · exact hadd _ (fun h => n5 h.symm)
    · rfl

end Editor

namespace Editor

/-- An object of the registry after `makeObject` sits on the target cell or is an object
of the registry before. -/
theorem makeObject_mem_cell (tag : Int) (c : Cell) (L : Level) (hr : CellInRange c)
    (o : GameObject)
    (ho : o ∈ (EditorLevel.makeObject tag c L).objects) :
    o ∈ L.objects ∨ o.cell SIZE = c := by
  cases hocc : L.getObjectAtPosition c SIZE with
  | some e => rw [makeObject_of_occupied tag c L (by simp [hocc])] at ho; exact Or.inl ho
  | none =>
    have hc : ∀ i w h t b, GameObject.cell ⟨i, c.1 * SIZE, c.2 * SIZE, w, h, t, b⟩ SIZE = c :=
      fun i w h t b => cell_of_corner i _ _ w h t b c rfl rfl
    have hadd : ∀ a : GameObject, a.cell SIZE = c → o ∈ L.objects ++ [a] →
        o ∈ L.objects ∨ o.cell SIZE = c := by
      intro a ha hm
      rcases List.mem_append.1 hm with h | h
      · exact Or.inl h
      · rw [List.mem_singleton] at h; subst h; exact Or.inr ha
    have hmove : ∀ i, o ∈ L.objects.map (relocate i c SIZE) →
        o ∈ L.objects ∨ o.cell SIZE = c := by
      intro i hm
      obtain ⟨a, ha, rfl⟩ := List.mem_map.1 hm
      by_cases hai : a.id = i
      · exact Or.inr (relocate_cell i c a hai)
      · rw [relocate_of_ne i c SIZE a hai]; exact Or.inl ha
    rw [makeObject_of_empty tag c L hr hocc] at ho
    split_ifs at ho with h1 h2 h3 h4 h5 h6 h7
    · cases hp : L.mPlayer with
      | none => simp [hp] at h2
      | some i => simp only [Level.movePlayer, hp] at ho; exact hmove i ho
    · exact hadd _ (hc _ _ _ _ _) ho
    · cases hp : L.mGoal with
      | none => simp [hp] at h4
      | some i => simp only [Level.moveGoal, hp] at ho; exact hmove i ho
    · exact hadd _ (hc _ _ _ _ _) ho
    · exact hadd _ (hc _ _ _ _ _) ho
    · exact hadd _ (hc _ _ _ _ _) ho
    · exact hadd _ (hc _ _ _ _ _) ho
    · exact Or.inl ho

/-- The tag of an object of the registry after `makeObject` is an entity tag or the tag
of an object of the registry before. -/
theorem makeObject_mem_tag (tag : Int) (c : Cell) (L : Level) (o : GameObject)
    (ho : o ∈ (EditorLevel.makeObject tag c L).objects) :
    (∃ a ∈ L.objects, a.tag = o.tag) ∨ isEntityTag o.tag = true := by
  cases hocc : L.getObjectAtPosition c SIZE with
  | some e =>
    rw [makeObject_of_occupied tag c L (by simp [hocc])] at ho; exact Or.inl ⟨o, ho, rfl⟩
  | none =>
    have hadd : ∀ a : GameObject, isEntityTag a.tag = true → o ∈ L.objects ++ [a] →
        (∃ a ∈ L.objects, a.tag = o.tag) ∨ isEntityTag o.tag = true := by
      intro a ha hm
      rcases List.mem_append.1 hm with h | h
      · exact Or.inl ⟨o, h, rfl⟩
      · rw [List.mem_singleton] at h; subst h; exact Or.inr ha
    have hmove : ∀ i, o ∈ L.objects.map (relocate i c SIZE) →
        (∃ a ∈ L.objects, a.tag = o.tag) ∨ isEntityTag o.tag = true := by
      intro i hm
      obtain ⟨a, ha, rfl⟩ := List.mem_map.1 hm
      exact Or.inl ⟨a, ha, by simp⟩
    rw [makeObject_of_empty_gen tag c L hocc] at ho
    split_ifs at ho with h1 h2 h3 h4 h5 h6 h7
    · cases hp : L.mPlayer with
      | none => simp [hp] at h2
      | some i => simp only [Level.movePlayer, hp] at ho; exact hmove i ho
    · exact hadd _ (by simp [isEntityTag, EditorPlayer, EditorGoal, EditorBlock, EditorEnemy,
        EditorCollectible]) ho
    · cases hp : L.mGoal with
      | none => simp [hp] at h4
      | some i => simp only [Level.moveGoal, hp] at ho; exact hmove i ho
    · exact hadd _ (by simp [isEntityTag, EditorPlayer, EditorGoal, EditorBlock, EditorEnemy,
        EditorCollectible]) ho
    · exact hadd _ (by simp [isEntityTag, EditorPlayer, EditorGoal, EditorBlock, EditorEnemy,
        EditorCollectible]) ho
    · exact hadd _ (by simp [isEntityTag, EditorPlayer, EditorGoal, EditorBlock, EditorEnemy,
        EditorCollectible]) ho
    · exact hadd _ (by simp [isEntityTag, EditorPlayer, EditorGoal, EditorBlock, EditorEnemy,
        EditorCollectible]) ho
    · exact Or.inl ⟨o, ho, rfl⟩

theorem TagsKnown_makeObject {L : Level} (h : L.TagsKnown) (tag : Int) (c : Cell) :
    (EditorLevel.makeObject tag c L).TagsKnown := by
  intro o ho
  rcases makeObject_mem_tag tag c L o ho with ⟨a, ha, hat⟩ | h2
  · rw [← hat]; exact h a ha
  · exact Or.inr h2

theorem TagsKnown_addEditorObject {L : Level} (h : L.TagsKnown) :
    (L.addObject (EditorObject L.nextId)).TagsKnown := by
  intro o ho
  simp only [Level.addObject, List.mem_append, List.mem_singleton] at ho
  rcases ho with ho | ho
  · exact h o ho
  · subst ho; exact Or.inl rfl

/-- The state after the calls of one scanned character. -/
theorem run_scanStep (L : Level) (p : Char × Cell) :
    L.run (scanStep p) =
      (match symbolTag p.1 with
        | some tag => EditorLevel.makeObject tag p.2 L
        | none => L).addObject
      (EditorObject (match symbolTag p.1 with
        | some tag => EditorLevel.makeObject tag p.2 L
        | none => L).nextId) := by
  unfold scanStep Level.run
  cases symbolTag p.1 <;> rfl

theorem run_append (L : Level) (a b : List Call) : L.run (a ++ b) = (L.run a).run b := by
  simp [Level.run, List.foldl_append]

/-- One scanned character adds one `EditorObject` and keeps the level consistent. -/
theorem scanStep_controllers {L : Level} (hL : L.WF) (hT : L.TagsKnown) (p : Char × Cell) :
    (L.run (scanStep p)).WF ∧ (L.run (scanStep p)).TagsKnown ∧
    ∃ k, (L.run (scanStep p)).withTag 0 = L.withTag 0 ++ [EditorObject k] := by
  rw [run_scanStep]
  have key : ∀ M : Level, M.WF → M.TagsKnown → M.withTag 0 = L.withTag 0 →
      (M.addObject (EditorObject M.nextId)).WF ∧
      (M.addObject (EditorObject M.nextId)).TagsKnown ∧
      ∃ k, (M.addObject (EditorObject M.nextId)).withTag 0
        = L.withTag 0 ++ [EditorObject k] := by
    intro M hM hMT hM0
    refine ⟨hM.exec Call.addEditorObject, TagsKnown_addEditorObject hMT, M.nextId, ?_⟩
    rw [← hM0]
    simp [Level.withTag, Level.addObject, List.filter_append, EditorObject]
  cases symbolTag p.1 with
  | none => exact key L hL hT rfl
  | some tag =>
    exact key _ (hL.makeObject tag p.2) (TagsKnown_makeObject hT tag p.2)
      (hL.makeObject_withTag_other tag p.2 0 (by decide))

theorem scan_controllers (l : List (Char × Cell)) {L : Level} (hL : L.WF)
    (hT : L.TagsKnown) :
    (L.run (l.flatMap scanStep)).WF ∧ (L.run (l.flatMap scanStep)).TagsKnown ∧
    ∃ ks : List Nat, ks.length = l.length ∧
      (L.run (l.flatMap scanStep)).withTag 0 = L.withTag 0 ++ ks.map EditorObject := by
  induction l generalizing L with
  | nil => exact ⟨hL, hT, [], rfl, by simp [Level.run]⟩
  | cons p t ih =>
    rw [List.flatMap_cons, run_append]
    obtain ⟨h1, h2, k, hk⟩ := scanStep_controllers hL hT p
    obtain ⟨h3, h4, ks, hlen, hks⟩ := ih h1 h2
    refine ⟨h3, h4, k :: ks, by simp [hlen], ?_⟩
    rw [hks, hk]
    simp

theorem length_eq_entities_add_controllers {L : Level} (hT : L.TagsKnown) :
    L.objects.length = L.entities.length + (L.withTag 0).length := by
  unfold Level.entities Level.withTag
  have hT2 : ∀ o ∈ L.objects, o.tag = 0 ∨ isEntityTag o.tag = true := hT
  generalize L.objects = l at hT2
  induction l with
  | nil => rfl
  | cons a t ih =>
    have iht := ih (fun o ho => hT2 o (by simp [ho]))
    rcases hT2 a (by simp) with h | h
    · have h2 : isEntityTag a.tag = false := by rw [h]; decide
      have h3 : isEntityTag 0 = false := by decide
      simp [List.filter_cons, h3, h]
      omega
    · have h2 : a.tag ≠ 0 := by
        intro h0; rw [h0] at h; exact absurd h (by decide)
      simp [List.filter_cons, h, h2]
      omega

end Editor

namespace Editor

/-! ## `makeObject` on the (tag, cell) pairs -/

theorem pairs_addObject (L : Level) (o : GameObject) (h : isEntityTag o.tag = true) :
    (L.addObject o).pairs = L.pairs ++ [(o.tag, o.cell SIZE)] := by
  simp [Level.pairs, Level.entities, Level.addObject, List.filter_append, h]

theorem pairs_addObject_other (L : Level) (o : GameObject) (h : isEntityTag o.tag = false) :
    (L.addObject o).pairs = L.pairs := by
  simp [Level.pairs, Level.entities, Level.addObject, List.filter_append, h]

theorem pairs_setPlayer (L : Level) (o : GameObject) : (L.setPlayer o).pairs = L.pairs := rfl

theorem pairs_setGoal (L : Level) (o : GameObject) : (L.setGoal o).pairs = L.pairs := rfl

theorem mem_pairs_tag {L : Level} {t : Int} (ht : isEntityTag t = true) :
    (∃ p ∈ L.pairs, p.1 = t) ↔ ∃ o ∈ L.objects, o.tag = t := by
  constructor
  · rintro ⟨p, hp, rfl⟩
    simp only [Level.pairs, Level.entities, List.mem_map, List.mem_filter] at hp
    obtain ⟨o, ⟨ho, -⟩, rfl⟩ := hp
    exact ⟨o, ho, rfl⟩
  · rintro ⟨o, ho, rfl⟩
    refine ⟨(o.tag, o.cell SIZE), ?_, rfl⟩
    simp only [Level.pairs, Level.entities, List.mem_map, List.mem_filter]
    exact ⟨o, ⟨ho, ht⟩, rfl⟩

theorem pairs_relocate (L M : Level) (i : Nat) (c : Cell) (t : Int)
    (hM : M.objects = L.objects.map (relocate i c SIZE))
    (hiff : ∀ o ∈ L.objects, o.id = i ↔ o.tag = t) :
    M.pairs = L.pairs.map (fun p => if p.1 = t then (t, c) else p) := by
  simp only [Level.pairs, Level.entities, hM, List.filter_map, List.map_map]
  have hcomp : ((fun o : GameObject => isEntityTag o.tag) ∘ relocate i c SIZE)
      = fun o : GameObject => isEntityTag o.tag := by
    funext o; simp
  rw [hcomp]
  apply List.map_congr_left
  intro o ho
  have hom : o ∈ L.objects := (List.mem_filter.1 ho).1
  simp only [Function.comp]
  by_cases h : o.id = i
  · have ht := (hiff o hom).1 h
    rw [relocate_cell i c o h, relocate_tag, if_pos ht, ht]
  · have ht : ¬ o.tag = t := fun h2 => h ((hiff o hom).2 h2)
    rw [relocate_of_ne i c SIZE o h, if_neg ht]

/-- On an empty target cell of a consistent level, `makeObject` with one of the five tags
acts on the (tag, cell) pairs of the placed entities as `placePair`. -/
theorem makeObject_pairs {L : Level} (hL : L.WF) (tag : Int) (c : Cell)
    (hr : CellInRange c) (ht : isEntityTag tag = true) (hempty : L.getObjectAtPosition c SIZE = none) :
    (EditorLevel.makeObject tag c L).pairs = placePair (tag, c) L.pairs := by
  have hc : ∀ i w h t b, GameObject.cell ⟨i, c.1 * SIZE, c.2 * SIZE, w, h, t, b⟩ SIZE = c :=
    fun i w h t b => cell_of_corner i _ _ w h t b c rfl rfl
  have hplain : ∀ o : GameObject, o.tag = tag → o.cell SIZE = c →
      tag ≠ TAG_PLAYER → tag ≠ TAG_GOAL →
      (L.addObject o).pairs = placePair (tag, c) L.pairs := by
    intro o h1 h2 h3 h4
    rw [pairs_addObject L o (by rw [h1]; exact ht), h1, h2]
    simp [placePair, h3, h4]
  rw [makeObject_of_empty tag c L hr hempty]
  split_ifs with h1 h2 h3 h4 h5 h6 h7
  · subst h1
    cases hp : L.mPlayer with
    | none => simp [hp] at h2
    | some i =>
      obtain ⟨p, hpm, -, hpt⟩ := hL.player_ref i hp
      have hex : ∃ p ∈ L.pairs, p.1 = TAG_PLAYER := (mem_pairs_tag ht).2 ⟨p, hpm, hpt⟩
      simp only [Level.movePlayer, hp]
      rw [pairs_relocate L _ i c TAG_PLAYER rfl (fun o ho => hL.player_iff hp ho)]
      simp only [placePair, true_or, true_and]
      rw [if_pos hex]
  · subst h1
    have hnone : L.mPlayer = none := by simpa using h2
    have hex : ¬ ∃ p ∈ L.pairs, p.1 = TAG_PLAYER := by
      rw [mem_pairs_tag ht]
      rintro ⟨o, ho, hot⟩
      have := hL.player_tag o ho hot
      rw [hnone] at this
      exact Option.noConfusion this
    rw [pairs_addObject _ _ (by exact ht), pairs_setPlayer]
    simp only [placePair, true_or, true_and]
    rw [if_neg hex]
    simp only [EditorPlayer, hc]
  · subst h3
    cases hp : L.mGoal with
    | none => simp [hp] at h4
    | some i =>
      obtain ⟨p, hpm, -, hpt⟩ := hL.goal_ref i hp
      have hex : ∃ p ∈ L.pairs, p.1 = TAG_GOAL := (mem_pairs_tag ht).2 ⟨p, hpm, hpt⟩
      simp only [Level.moveGoal, hp]
      rw [pairs_relocate L _ i c TAG_GOAL rfl (fun o ho => hL.goal_iff hp ho)]
      simp only [placePair, or_true, true_and]
      rw [if_pos hex]
  · subst h3
    have hnone : L.mGoal = none := by simpa using h4
    have hex : ¬ ∃ p ∈ L.pairs, p.1 = TAG_GOAL := by
      rw [mem_pairs_tag ht]
      rintro ⟨o, ho, hot⟩
      have := hL.goal_tag o ho hot
      rw [hnone] at this
      exact Option.noConfusion this
    rw [pairs_addObject _ _ (by exact ht), pairs_setGoal]
    simp only [placePair, or_true, true_and]
    rw [if_neg hex]
    simp only [EditorGoal, hc]
  · exact hplain _ h5.symm (hc _ _ _ _ _) h1 h3
  · exact hplain _ h6.symm (hc _ _ _ _ _) h1 h3
  · exact hplain _ h7.symm (hc _ _ _ _ _) h1 h3
  · exfalso
    simp only [isEntityTag, decide_eq_true_eq] at ht
    rcases ht with h | h | h | h | h
    · exact h1 h
    · exact h3 h
    · exact h5 h
    · exact h6 h
    · exact h7 h

end Editor

namespace Editor

/-! ## The layout loop on the (tag, cell) pairs -/

theorem symbolTag_isEntityTag {ch : Char} {t : Int} (h : symbolTag ch = some t) :
    isEntityTag t = true := by
  unfold symbolTag at h
  split_ifs at h <;> (cases h; decide)

theorem ScannedTo_empty_cell {L : Level} {x y : Int} (hS : L.ScannedTo x y) :
    L.getObjectAtPosition (x, y) SIZE = none := by
  rw [getObjectAtPosition_eq_none]
  intro o ho h
  have := hS o ho
  rw [h] at this
  simp [scannedBefore] at this

theorem scanStep_scan {L : Level} (hL : L.WF) (n m : Nat) (hS : L.ScannedTo n m)
    (hn : n ≤ 3355444) (hm : m ≤ 3355444) (ch : Char) :
    (L.run (scanStep (ch, ((n : Int), (m : Int))))).WF ∧
    (L.run (scanStep (ch, ((n : Int), (m : Int))))).ScannedTo ((n + 1 : Nat) : Int) m ∧
    (L.run (scanStep (ch, ((n : Int), (m : Int))))).pairs
      = decodeStep L.pairs (ch, ((n : Int), (m : Int))) := by
  have hr : CellInRange ((n : Int), (m : Int)) := by
    unfold CellInRange EXACT_MAX
    refine ⟨?_, ?_, ?_, ?_⟩ <;> simp only <;> omega
  rw [run_scanStep]
  have key : ∀ M : Level, M.WF →
      (∀ o ∈ M.objects, o ∈ L.objects ∨ o.cell SIZE = ((n : Int), (m : Int))) →
      (M.addObject (EditorObject M.nextId)).WF ∧
      (M.addObject (EditorObject M.nextId)).ScannedTo ((n + 1 : Nat) : Int) m ∧
      (M.addObject (EditorObject M.nextId)).pairs = M.pairs := by
    intro M hM hmem
    refine ⟨hM.exec Call.addEditorObject, ?_,
      pairs_addObject_other _ _ (show isEntityTag 0 = false by decide)⟩
    intro o ho
    simp only [Level.addObject, List.mem_append, List.mem_singleton] at ho
    rcases ho with ho | ho
    · rcases hmem o ho with h | h
      · have := hS o h
        simp only [scannedBefore] at this ⊢
        push_cast
        omega
      · rw [h]
        show (m : Int) < m ∨ ((m : Int) = m ∧ (n : Int) < ((n + 1 : Nat) : Int))
        omega
    · subst ho
      have : (EditorObject M.nextId).cell SIZE = (0, 0) := by
        simp [EditorObject, GameObject.cell]
      rw [this]
      show (0 : Int) < m ∨ ((0 : Int) = m ∧ (0 : Int) < ((n + 1 : Nat) : Int))
      omega
  cases hsym : symbolTag ch with
  | none =>
    obtain ⟨h1, h2, h3⟩ := key L hL (fun o ho => Or.inl ho)
    simp only [hsym] at h1 h2 h3 ⊢
    exact ⟨h1, h2, by rw [h3]; simp [decodeStep, hsym]⟩
  | some tag =>
    obtain ⟨h1, h2, h3⟩ := key _ (hL.makeObject tag ((n : Int), (m : Int)))
      (fun o ho => makeObject_mem_cell tag _ L hr o ho)
    simp only [hsym] at h1 h2 h3 ⊢
    refine ⟨h1, h2, ?_⟩
    rw [h3, makeObject_pairs hL tag _ hr (symbolTag_isEntityTag hsym)
      (ScannedTo_empty_cell hS)]
    simp [decodeStep, hsym]

theorem rowScan_run (row : List Char) (n m : Nat) {L : Level} (hL : L.WF)
    (hS : L.ScannedTo n m) (hn : n + row.length ≤ 3355445) (hm : m ≤ 3355444) :
    (L.run (((row.enumFrom n).map fun jc => (jc.2, ((jc.1 : Int), (m : Int)))).flatMap
      scanStep)).WF ∧
    (L.run (((row.enumFrom n).map fun jc => (jc.2, ((jc.1 : Int), (m : Int)))).flatMap
      scanStep)).ScannedTo ((n + row.length : Nat) : Int) m ∧
    (L.run (((row.enumFrom n).map fun jc => (jc.2, ((jc.1 : Int), (m : Int)))).flatMap
      scanStep)).pairs
      = ((row.enumFrom n).map fun jc => (jc.2, ((jc.1 : Int), (m : Int)))).foldl
          decodeStep L.pairs := by
  induction row generalizing n L with
  | nil => exact ⟨hL, by simpa using hS, rfl⟩
  | cons ch rest ih =>
    simp only [List.enumFrom_cons, List.map_cons, List.flatMap_cons, run_append,
      List.foldl_cons, List.length_cons]
    simp only [List.length_cons] at hn
    obtain ⟨h1, h2, h3⟩ := scanStep_scan hL n m hS (by omega) hm ch
    obtain ⟨h4, h5, h6⟩ := ih (n + 1) h1 h2 (by omega)
    refine ⟨h4, ?_, ?_⟩
    · have : n + 1 + rest.length = n + (rest.length + 1) := by omega
      rw [← this]; exact h5
    · rw [h6, h3]

theorem layoutScan_run (rows : List (List Char)) (m : Nat) {L : Level} (hL : L.WF)
    (hS : L.ScannedTo 0 m) (hm : m + rows.length ≤ 3355445)
    (hrows : ∀ row ∈ rows, row.length ≤ 3355445) :
    (L.run (((rows.enumFrom m).flatMap fun ir =>
        (ir.2.enumFrom 0).map fun jc => (jc.2, ((jc.1 : Int), (ir.1 : Int)))).flatMap scanStep)).WF ∧
    (L.run (((rows.enumFrom m).flatMap fun ir =>
        (ir.2.enumFrom 0).map fun jc => (jc.2, ((jc.1 : Int), (ir.1 : Int)))).flatMap scanStep)).pairs
      = ((rows.enumFrom m).flatMap fun ir =>
          (ir.2.enumFrom 0).map fun jc => (jc.2, ((jc.1 : Int), (ir.1 : Int)))).foldl
            decodeStep L.pairs := by
  induction rows generalizing m L with
  | nil => exact ⟨hL, rfl⟩
  | cons row rest ih =>
    simp only [List.enumFrom_cons, List.flatMap_cons, List.flatMap_append, run_append,
      List.foldl_append]
    have hS0 : L.ScannedTo ((0 : Nat) : Int) m := by simpa using hS
    simp only [List.length_cons] at hm
    obtain ⟨h1, h2, h3⟩ := rowScan_run row 0 m hL hS0
      (by have := hrows row (by simp); omega) (by omega)
    have h2' : (L.run (((row.enumFrom 0).map fun jc =>
        (jc.2, ((jc.1 : Int), (m : Int)))).flatMap scanStep)).ScannedTo 0 ((m + 1 : Nat) : Int) := by
      intro o ho
      have := h2 o ho
      simp only [scannedBefore] at this ⊢
      push_cast
      omega
    obtain ⟨h4, h5⟩ := ih (m + 1) h1 h2' (by omega)
      (fun r hr => hrows r (List.mem_cons_of_mem _ hr))
    exact ⟨h4, by rw [h5, h3]⟩

theorem LayoutWithin.mono {n k : Nat} {layout : List (List Char)} (h : LayoutWithin n layout)
    (hnk : n ≤ k) : LayoutWithin k layout :=
  ⟨le_trans h.1 hnk, fun row hrow => le_trans (h.2 row hrow) hnk⟩

/-- Decoding a layout into the empty level yields the (tag, cell) pairs that the
placement rules yield on the scanned characters, as long as every product with `SIZE` is
exact. -/
theorem initialize_pairs (layout : List (List Char)) (hw : LayoutWithin 3355445 layout) :
    ( EditorLevel.initialize layout Level.empty).WF ∧
    ( EditorLevel.initialize layout Level.empty).pairs = decodePairs layout := by
  have hS : Level.empty.ScannedTo 0 ((0 : Nat) : Int) := by
    intro o ho; simp [Level.empty] at ho
  obtain ⟨h1, h2⟩ := layoutScan_run layout 0 WF_empty hS (by have := hw.1; omega) hw.2
  unfold EditorLevel.initialize decodePairs
  rw [initializeCalls_eq_scan layout (hw.mono (by decide))]
  exact ⟨h1, h2⟩

end Editor

namespace Editor

/-! ## Singletons in the decoded pairs -/

theorem symbolTag_eq_player {ch : Char} : symbolTag ch = some TAG_PLAYER ↔ ch = 'P' := by
  unfold symbolTag
  constructor
  · intro h
    split_ifs at h with h1 h2 h3 h4 h5
    · exact h1
    all_goals exact absurd h (by decide)
  · intro h; subst h; decide

theorem symbolTag_eq_goal {ch : Char} : symbolTag ch = some TAG_GOAL ↔ ch = 'G' := by
  unfold symbolTag
  constructor
  · intro h
    split_ifs at h with h1 h2 h3 h4 h5
    · exact absurd h (by decide)
    · exact h2
    all_goals exact absurd h (by decide)
  · intro h; subst h; decide

/-- Placing a singleton tag leaves exactly that pair under its tag. -/
theorem placePair_filter_same (q : Int × Cell) (ps : List (Int × Cell))
    (hq : q.1 = TAG_PLAYER ∨ q.1 = TAG_GOAL)
    (hle : (ps.filter (fun p => decide (p.1 = q.1))).length ≤ 1) :
    (placePair q ps).filter (fun p => decide (p.1 = q.1)) = [q] := by
  unfold placePair
  by_cases hex : ∃ p ∈ ps, p.1 = q.1
  · rw [if_pos ⟨hq, hex⟩]
    have hmap : ∀ l : List (Int × Cell),
        (l.map (fun p => if p.1 = q.1 then q else p)).filter (fun p => decide (p.1 = q.1))
          = (l.filter (fun p => decide (p.1 = q.1))).map (fun _ => q) := by
      intro l
      induction l with
      | nil => rfl
      | cons a t ih =>
        by_cases ha : a.1 = q.1
        · simp [List.filter_cons, ha, ih]
        · simp [List.filter_cons, ha, ih]
    rw [hmap]
    obtain ⟨p, hp, hpq⟩ := hex
    have hmem : p ∈ ps.filter (fun p => decide (p.1 = q.1)) := by
      simp [List.mem_filter, hp, hpq]
    match h : ps.filter (fun p => decide (p.1 = q.1)) with
    | [] => rw [h] at hmem; simp at hmem
    | [_] => rw [h]; rfl
    | a :: b :: t => rw [h] at hle; simp at hle
  · rw [if_neg (fun h => hex h.2)]
    have hnil : ps.filter (fun p => decide (p.1 = q.1)) = [] := by
      rw [List.filter_eq_nil_iff]
      intro p hp hpq
      exact hex ⟨p, hp, by simpa using hpq⟩
    simp [List.filter_append, hnil]

/-- Placing a pair leaves the pairs of any other tag as they were. -/
theorem placePair_filter_other (q : Int × Cell) (ps : List (Int × Cell)) (t : Int)
    (hne : q.1 ≠ t) :
    (placePair q ps).filter (fun p => decide (p.1 = t))
      = ps.filter (fun p => decide (p.1 = t)) := by
  unfold placePair
  split_ifs with h
  · refine filter_map_of_fixed _ _ _ ?_ ?_
    · intro a _
      by_cases ha : a.1 = q.1
      · simp [ha, hne]
      · simp [ha]
    · intro a _ hat
      simp only [decide_eq_true_eq] at hat
      have : ¬ a.1 = q.1 := fun h2 => hne (h2 ▸ hat)
      simp [this]
  · simp [List.filter_append, hne]

/-- After decoding a scan, the pairs of a singleton tag are: the pair at the cell of the
last character standing for the tag, if there is one, and otherwise the ones from
before. -/
theorem foldl_decodeStep_singleton (s : Char) (t : Int)
    (hsym : ∀ ch, symbolTag ch = some t ↔ ch = s) (ht : t = TAG_PLAYER ∨ t = TAG_GOAL)
    (l : List (Char × Cell)) (ps : List (Int × Cell))
    (hle : (ps.filter (fun p => decide (p.1 = t))).length ≤ 1) :
    (l.foldl decodeStep ps).filter (fun p => decide (p.1 = t))
      = match (l.filter (fun p => decide (p.1 = s))).getLast? with
        | some p => [(t, p.2)]
        | none => ps.filter (fun p => decide (p.1 = t)) := by
  induction l generalizing ps with
  | nil => rfl
  | cons a rest ih =>
    rw [List.foldl_cons]
    by_cases ha : a.1 = s
    · have hstep : decodeStep ps a = placePair (t, a.2) ps := by
        simp [decodeStep, (hsym a.1).2 ha]
      have hf : (decodeStep ps a).filter (fun p => decide (p.1 = t)) = [(t, a.2)] := by
        rw [hstep]
        exact placePair_filter_same (t, a.2) ps ht hle
      have hfil : (a :: rest).filter (fun p => decide (p.1 = s))
          = a :: rest.filter (fun p => decide (p.1 = s)) := by
        simp [List.filter_cons, ha]
      rw [ih _ (by rw [hf]; simp), hf, hfil, List.getLast?_cons]
      cases (rest.filter (fun p => decide (p.1 = s))).getLast? <;> rfl
    · have hf : (decodeStep ps a).filter (fun p => decide (p.1 = t))
          = ps.filter (fun p => decide (p.1 = t)) := by
        unfold decodeStep
        cases hs : symbolTag a.1 with
        | none => rfl
        | some t2 =>
          refine placePair_filter_other (t2, a.2) ps t ?_
          intro h
          simp only at h
          subst h
          exact ha ((hsym a.1).1 hs)
      rw [ih _ (by rw [hf]; exact hle), hf]
      simp [List.filter_cons, ha]

/-- The pairs of an entity tag are those of the objects carrying the tag. -/
theorem pairs_filter_tag (L : Level) (t : Int) (ht : isEntityTag t = true) :
    L.pairs.filter (fun p => decide (p.1 = t))
      = (L.withTag t).map (fun o => (o.tag, o.cell SIZE)) := by
  simp only [Level.pairs, Level.entities, Level.withTag, List.filter_map, List.filter_filter]
  congr 1
  apply List.filter_congr
  intro o _
  by_cases h : o.tag = t
  · simp [h, ht]
  · simp [h]

end Editor

namespace Editor

/-! ## The round trip through the level text -/

theorem rowCells_nodup (row : List Char) (n : Nat) (y : Int) :
    (((row.enumFrom n).map fun jc => (jc.2, ((jc.1 : Int), y))).map Prod.snd).Nodup ∧
    ∀ c ∈ ((row.enumFrom n).map fun jc => (jc.2, ((jc.1 : Int), y))).map Prod.snd,
      (n : Int) ≤ c.1 ∧ c.2 = y := by
  induction row generalizing n with
  | nil => simp
  | cons ch rest ih =>
    obtain ⟨h1, h2⟩ := ih (n + 1)
    simp only [List.enumFrom_cons, List.map_cons, List.nodup_cons, List.mem_cons]
    refine ⟨⟨?_, h1⟩, ?_⟩
    · intro hmem
      have := (h2 _ hmem).1
      simp only at this
      omega
    · rintro c (rfl | hc)
      · exact ⟨le_refl _, rfl⟩
      · obtain ⟨h3, h4⟩ := h2 c hc
        exact ⟨by omega, h4⟩

theorem layoutCells_nodup (rows : List (List Char)) (m : Nat) :
    (((rows.enumFrom m).flatMap fun ir =>
        (ir.2.enumFrom 0).map fun jc => (jc.2, ((jc.1 : Int), (ir.1 : Int)))).map
      Prod.snd).Nodup ∧
    ∀ c ∈ ((rows.enumFrom m).flatMap fun ir =>
        (ir.2.enumFrom 0).map fun jc => (jc.2, ((jc.1 : Int), (ir.1 : Int)))).map Prod.snd,
      (m : Int) ≤ c.2 := by
  induction rows generalizing m with
  | nil => simp
  | cons row rest ih =>
    obtain ⟨h1, h2⟩ := ih (m + 1)
    obtain ⟨h3, h4⟩ := rowCells_nodup row 0 (m : Int)
    simp only [List.enumFrom_cons, List.flatMap_cons, List.map_append]
    refine ⟨?_, ?_⟩
    · rw [List.nodup_append]
      refine ⟨h3, h1, ?_⟩
      intro c hc hc2
      have a := (h4 c hc).2
      have b := h2 c hc2
      omega
    · intro c hc
      rcases List.mem_append.1 hc with hc | hc
      · have := (h4 c hc).2; omega
      · have := h2 c hc; omega

/-- No cell is scanned twice. -/
theorem scanCells_nodup (layout : List (List Char)) :
    ((scanCells layout).map Prod.snd).Nodup :=
  (layoutCells_nodup layout 0).1

/-- When no singleton tag occurs twice, decoding appends one pair per recognized
character. -/
theorem foldl_decodeStep_eq_append (l : List (Char × Cell)) (ps : List (Int × Cell))
    (hP : ((ps ++ l.filterMap fun p => (symbolTag p.1).map fun t => (t, p.2)).filter
      (fun p => decide (p.1 = TAG_PLAYER))).length ≤ 1)
    (hG : ((ps ++ l.filterMap fun p => (symbolTag p.1).map fun t => (t, p.2)).filter
      (fun p => decide (p.1 = TAG_GOAL))).length ≤ 1) :
    l.foldl decodeStep ps
      = ps ++ l.filterMap fun p => (symbolTag p.1).map fun t => (t, p.2) := by
  induction l generalizing ps with
  | nil => simp
  | cons a rest ih =>
    rw [List.foldl_cons]
    cases hs : symbolTag a.1 with
    | none =>
      have hstep : decodeStep ps a = ps := by simp [decodeStep, hs]
      simp only [List.filterMap_cons, hs, Option.map_none'] at hP hG ⊢
      rw [hstep]
      exact ih ps hP hG
    | some t =>
      simp only [List.filterMap_cons, hs, Option.map_some'] at hP hG ⊢
      have hstep : decodeStep ps a = ps ++ [(t, a.2)] := by
        simp only [decodeStep, hs, placePair]
        rw [if_neg]
        rintro ⟨ht, p, hp, hpt⟩
        have two : ∀ tg : Int, t = tg →
            ((ps ++ (t, a.2) :: rest.filterMap
              fun p => (symbolTag p.1).map fun t => (t, p.2)).filter
              (fun p => decide (p.1 = tg))).length ≤ 1 → False := by
          intro tg htg hle
          subst htg
          have h1 : 1 ≤ (ps.filter (fun q => decide (q.1 = t))).length := by
            apply List.length_pos_of_mem (a := p)
            simp [List.mem_filter, hp, hpt]
          simp only [List.filter_append, List.filter_cons, List.length_append, decide_True,
            if_true, List.length_cons] at hle
          omega
        rcases ht with ht | ht
        · exact two _ ht hP
        · exact two _ ht hG
      rw [hstep]
      have e : ps ++ (t, a.2) :: rest.filterMap
            (fun p => (symbolTag p.1).map fun t => (t, p.2))
          = (ps ++ [(t, a.2)]) ++ rest.filterMap
            (fun p => (symbolTag p.1).map fun t => (t, p.2)) := by simp
      rw [e] at hP hG ⊢
      exact ih _ hP hG

end Editor

namespace Editor

theorem export_rows : (EditorLevel.height / SIZE).toNat = 20 := by decide

theorem export_cols : (EditorLevel.width / SIZE).toNat = 20 := by decide

/-- The scan of an exported level: one entry per cell of the 20 x 20 bounds, carrying the
symbol of the cell. -/
theorem mem_scanCells_export (L : Level) (e : Char) (p : Char × Cell) :
    p ∈ scanCells (L.exportLevel SIZE e) ↔
      ∃ x y : Nat, x < 20 ∧ y < 20 ∧ p.2 = ((x : Int), (y : Int)) ∧
        p.1 = L.symbolAt ((x : Int), (y : Int)) SIZE e := by
  simp only [scanCells, Level.exportLevel, export_rows, export_cols, List.mem_flatMap,
    List.mem_map, List.mem_enum_iff_getElem?, List.getElem?_map, List.getElem?_range,
    Option.map_eq_some']
  constructor
  · rintro ⟨⟨i, row⟩, ⟨r, hr, hrow⟩, ⟨j, ch⟩, hj, rfl⟩
    simp only at hr hrow hj ⊢
    subst hrow
    simp only [List.getElem?_map, Option.map_eq_some'] at hj
    obtain ⟨c, hc, rfl⟩ := hj
    have hi : i < 20 ∧ r = i := by
      by_cases h : i < 20
      · rw [List.getElem?_range h] at hr; exact ⟨h, (Option.some.inj hr).symm⟩
      · rw [List.getElem?_eq_none (by simpa using h)] at hr; exact Option.noConfusion hr
    have hj2 : j < 20 ∧ c = j := by
      by_cases h : j < 20
      · rw [List.getElem?_range h] at hc; exact ⟨h, (Option.some.inj hc).symm⟩
      · rw [List.getElem?_eq_none (by simpa using h)] at hc; exact Option.noConfusion hc
    obtain ⟨hi1, rfl⟩ := hi
    obtain ⟨hj1, rfl⟩ := hj2
    exact ⟨c, r, hj1, hi1, rfl, rfl⟩
  · rintro ⟨x, y, hx, hy, h2, h1⟩
    refine ⟨(y, (List.range 20).map fun (c : Nat) => L.symbolAt ((c : Int), (y : Int)) SIZE e),
      ⟨y, List.getElem?_range hy, rfl⟩, (x, p.1), ?_, ?_⟩
    · simp only [List.getElem?_map, Option.map_eq_some']
      exact ⟨x, List.getElem?_range hx, h1.symm⟩
    · simp only
      rw [← h2]

theorem symbolTag_tagSymbol (e : Char) (he : symbolTag e = none) (tg t : Int) :
    symbolTag (tagSymbol e tg) = some t ↔ tg = t ∧ isEntityTag t = true := by
  unfold tagSymbol
  split_ifs with h1 h2 h3 h4 h5
  · subst h1
    constructor
    · intro h; cases h; exact ⟨rfl, by decide⟩
    · rintro ⟨rfl, -⟩; decide
  · subst h2
    constructor
    · intro h; cases h; exact ⟨rfl, by decide⟩
    · rintro ⟨rfl, -⟩; decide
  · subst h3
    constructor
    · intro h; cases h; exact ⟨rfl, by decide⟩
    · rintro ⟨rfl, -⟩; decide
  · subst h4
    constructor
    · intro h; cases h; exact ⟨rfl, by decide⟩
    · rintro ⟨rfl, -⟩; decide
  · subst h5
    constructor
    · intro h; cases h; exact ⟨rfl, by decide⟩
    · rintro ⟨rfl, -⟩; decide
  · rw [he]
    constructor
    · intro h; exact Option.noConfusion h
    · rintro ⟨rfl, h⟩
      simp only [isEntityTag, decide_eq_true_eq] at h
      rcases h with h | h | h | h | h
      · exact absurd h h1
      · exact absurd h h2
      · exact absurd h h3
      · exact absurd h h4
      · exact absurd h h5

/-- The pairs read off the exported text are the pairs of the level, when every placed
entity is what the lookup reports at its cell and lies within the bounds. -/
theorem mem_export_pairs {L : Level} (hvis : L.EntitiesVisible) (hb : L.InBounds)
    (e : Char) (he : symbolTag e = none) (q : Int × Cell) :
    q ∈ (scanCells (L.exportLevel SIZE e)).filterMap
        (fun p => (symbolTag p.1).map fun t => (t, p.2)) ↔ q ∈ L.pairs := by
  simp only [List.mem_filterMap, Option.map_eq_some']
  constructor
  · rintro ⟨p, hp, t, ht, rfl⟩
    obtain ⟨x, y, -, -, h2, h1⟩ := (mem_scanCells_export L e p).1 hp
    rw [h1] at ht
    unfold Level.symbolAt at ht
    cases hocc : L.getObjectAtPosition ((x : Int), (y : Int)) SIZE with
    | none => rw [hocc] at ht; simp only at ht; rw [he] at ht; exact Option.noConfusion ht
    | some o =>
      rw [hocc] at ht
      simp only at ht
      obtain ⟨hot, hent⟩ := (symbolTag_tagSymbol e he o.tag t).1 ht
      obtain ⟨hom, hoc⟩ := getObjectAtPosition_some_mem hocc
      simp only [Level.pairs, Level.entities, List.mem_map, List.mem_filter]
      exact ⟨o, ⟨hom, by rw [hot]; exact hent⟩, by rw [hot, hoc, h2]⟩
  · intro hq
    simp only [Level.pairs, List.mem_map] at hq
    obtain ⟨o, ho, rfl⟩ := hq
    obtain ⟨b1, b2, b3, b4⟩ := hb o ho
    obtain ⟨hom, hent⟩ := List.mem_filter.1 ho
    have hfind : L.getObjectAtPosition (o.cell SIZE) SIZE = some o := hvis o ho
    refine ⟨(tagSymbol e o.tag, o.cell SIZE), ?_, o.tag, ?_, rfl⟩
    · rw [mem_scanCells_export]
      refine ⟨(o.cell SIZE).1.toNat, (o.cell SIZE).2.toNat, by omega, by omega, ?_, ?_⟩
      · simp only [Int.toNat_of_nonneg b1, Int.toNat_of_nonneg b3]
      · simp only [Int.toNat_of_nonneg b1, Int.toNat_of_nonneg b3, Level.symbolAt, hfind]
    · exact (symbolTag_tagSymbol e he o.tag o.tag).2 ⟨rfl, hent⟩

end Editor

namespace Editor

theorem filterMap_symbol_cells_sublist (l : List (Char × Cell)) :
    ((l.filterMap fun p => (symbolTag p.1).map fun t => (t, p.2)).map Prod.snd).Sublist
      (l.map Prod.snd) := by
  induction l with
  | nil => simp
  | cons a rest ih =>
    cases hs : symbolTag a.1 with
    | none =>
      simp only [List.filterMap_cons, hs, Option.map_none', List.map_cons]
      exact List.Sublist.cons _ ih
    | some t =>
      simp only [List.filterMap_cons, hs, Option.map_some', List.map_cons]
      exact List.Sublist.cons₂ _ ih

theorem length_le_one_of_all_eq {α : Type} (l : List α) (hnd : l.Nodup)
    (h : ∀ a ∈ l, ∀ b ∈ l, a = b) : l.length ≤ 1 := by
  match l, hnd, h with
  | [], _, _ => simp
  | [_], _, _ => simp
  | a :: b :: t, hnd, h =>
    exfalso
    have : a = b := h a (by simp) b (by simp)
    subst this
    simp at hnd

theorem eq_of_filter_length_le_one {α : Type} (p : α → Bool) (l : List α)
    (h : (l.filter p).length ≤ 1) {a b : α} (ha : a ∈ l) (hb : b ∈ l)
    (hpa : p a = true) (hpb : p b = true) : a = b := by
  have ha2 : a ∈ l.filter p := List.mem_filter.2 ⟨ha, hpa⟩
  have hb2 : b ∈ l.filter p := List.mem_filter.2 ⟨hb, hpb⟩
  match hf : l.filter p with
  | [] => rw [hf] at ha2; simp at ha2
  | [c] =>
    rw [hf] at ha2 hb2
    simp only [List.mem_singleton] at ha2 hb2
    rw [ha2, hb2]
  | c :: d :: t => rw [hf] at h; simp at h

/-- In the pairs read off an exported level a tag that the level carries at most once
occurs at most once. -/
theorem export_pairs_tag_le_one {L : Level} (hvis : L.EntitiesVisible) (hb : L.InBounds)
    (e : Char) (he : symbolTag e = none) (tg : Int) (hle : (L.withTag tg).length ≤ 1) :
    (((scanCells (L.exportLevel SIZE e)).filterMap
        (fun p => (symbolTag p.1).map fun t => (t, p.2))).filter
      (fun p => decide (p.1 = tg))).length ≤ 1 := by
  have hnd : ((scanCells (L.exportLevel SIZE e)).filterMap
      (fun p => (symbolTag p.1).map fun t => (t, p.2))).Nodup :=
    List.Nodup.of_map _
      (List.Nodup.sublist (filterMap_symbol_cells_sublist _) (scanCells_nodup _))
  apply length_le_one_of_all_eq _ (List.Nodup.sublist (List.filter_sublist _) hnd)
  intro a ha b hb2
  obtain ⟨ha1, ha2⟩ := List.mem_filter.1 ha
  obtain ⟨hb1, hb3⟩ := List.mem_filter.1 hb2
  simp only [decide_eq_true_eq] at ha2 hb3
  have ha4 := (mem_export_pairs hvis hb e he a).1 ha1
  have hb4 := (mem_export_pairs hvis hb e he b).1 hb1
  simp only [Level.pairs, Level.entities, List.mem_map, List.mem_filter] at ha4 hb4
  obtain ⟨oa, ⟨hoa, -⟩, rfl⟩ := ha4
  obtain ⟨ob, ⟨hob, -⟩, rfl⟩ := hb4
  simp only at ha2 hb3
  have : oa = ob :=
    eq_of_filter_length_le_one (fun o : GameObject => decide (o.tag = tg)) L.objects hle hoa hob
      (by simpa using ha2) (by simpa using hb3)
  rw [this]

/-- The exported text has 20 rows of 20 symbols. -/
theorem export_within (L : Level) (e : Char) (n : Nat) (hn : 20 ≤ n) :
    LayoutWithin n (L.exportLevel SIZE e) := by
  unfold LayoutWithin Level.exportLevel
  rw [export_rows, export_cols]
  refine ⟨by simpa using hn, ?_⟩
  intro row hrow
  obtain ⟨r, -, rfl⟩ := List.mem_map.1 hrow
  simpa using hn

/-- Decoding the exported text of a level that satisfies the invariants and lies within
the bounds yields the pairs read off the text. -/
theorem initialize_export_pairs {L : Level} (hinv : L.Invariants) (hvis : L.EntitiesVisible)
    (hb : L.InBounds) (e : Char) (he : symbolTag e = none) :
    ( EditorLevel.initialize (L.exportLevel SIZE e) Level.empty).pairs
      = (scanCells (L.exportLevel SIZE e)).filterMap
          (fun p => (symbolTag p.1).map fun t => (t, p.2)) := by
  obtain ⟨-, hP, hG⟩ := hinv
  rw [(initialize_pairs _ (export_within L e 3355445 (by decide))).2, decodePairs,
    foldl_decodeStep_eq_append _ []
      (by simpa using export_pairs_tag_le_one hvis hb e he TAG_PLAYER hP)
      (by simpa using export_pairs_tag_le_one hvis hb e he TAG_GOAL hG)]
  simp

theorem pairs_nodup {L : Level} (h1 : (L.entities.map (fun o => o.cell SIZE)).Nodup) :
    L.pairs.Nodup := by
  have h2 : L.pairs.map Prod.snd = L.entities.map (fun o => o.cell SIZE) := by
    simp [Level.pairs, List.map_map, Function.comp]
  exact List.Nodup.of_map Prod.snd (by rw [h2]; exact h1)

end Editor

namespace Editor

/-! ## Long rows: the `float` counters stop at 2^24 -/

theorem counterAfter_succ (n : Nat) (x : Int) :
    counterAfter (n + 1) x = f32 (counterAfter n x + 1) := by
  unfold counterAfter
  rw [Function.iterate_succ_apply']

theorem counterAfter_succ_left (n : Nat) (x : Int) :
    counterAfter (n + 1) x = counterAfter n (f32 (x + 1)) := by
  unfold counterAfter
  rw [Function.iterate_succ_apply]

/-- Up to 2^24 increments from 0 the counter is exact. -/
theorem counterAfter_le (n : Nat) (h : n ≤ 16777216) : counterAfter n 0 = (n : Int) := by
  induction n with
  | zero => rfl
  | succ k ih =>
    rw [counterAfter_succ, ih (by omega), f32_succ (k : Int) (by omega) (by omega)]
    push_cast
    rfl

/-- From 2^24 increments on the counter stays at 2^24. -/
theorem counterAfter_ge (n : Nat) (h : 16777216 ≤ n) : counterAfter n 0 = 16777216 := by
  induction n with
  | zero => omega
  | succ k ih =>
    rw [counterAfter_succ]
    by_cases hk : 16777216 ≤ k
    · rw [ih hk]; decide
    · have hk2 : k = 16777215 := by omega
      rw [counterAfter_le k (by omega), hk2]
      decide

theorem charCalls_dot (x y : Int) : EditorLevel.charCalls '.' x y = [Call.addEditorObject] := by
  simp [EditorLevel.charCalls]

/-- A run of `n` empty symbols makes `n` `addObject` calls and increments `xPos` `n`
times. -/
theorem rowCalls_dots (n : Nat) (rest : List Char) (x y : Int) :
    EditorLevel.rowCalls (List.replicate n '.' ++ rest) x y
      = List.replicate n Call.addEditorObject
        ++ EditorLevel.rowCalls rest (counterAfter n x) y := by
  induction n generalizing x with
  | zero => rfl
  | succ k ih =>
    rw [List.replicate_succ, List.cons_append, EditorLevel.rowCalls, charCalls_dot,
      ih (f32 (x + 1)), List.replicate_succ, ← counterAfter_succ_left]
    rfl

/-- The calls of a one-row layout that has `n` empty symbols in front. -/
theorem initializeCalls_dots (n : Nat) (rest : List Char) :
    EditorLevel.initializeCalls [List.replicate n '.' ++ rest]
      = List.replicate n Call.addEditorObject
        ++ EditorLevel.rowCalls rest (counterAfter n 0) 0 := by
  unfold EditorLevel.initializeCalls
  rw [EditorLevel.layoutCalls, rowCalls_dots, EditorLevel.layoutCalls, List.append_nil]

/-- The scan of a one-row layout that has `n` empty symbols in front. -/
theorem scanCells_dots (n : Nat) (rest : List Char) :
    scanCells [List.replicate n '.' ++ rest]
      = ((List.replicate n '.').enum.map fun jc => (jc.2, ((jc.1 : Int), (0 : Int))))
        ++ ((rest.enumFrom n).map fun jc => (jc.2, ((jc.1 : Int), (0 : Int)))) := by
  unfold scanCells
  simp only [List.enum, List.enumFrom_cons, List.enumFrom_nil, List.flatMap_cons,
    List.flatMap_nil, List.append_nil, List.enumFrom_append, List.map_append,
    List.length_replicate, Nat.zero_add, Nat.cast_zero]

theorem scan_dots_symbolTag (n : Nat) :
    ∀ p ∈ (List.replicate n '.').enum.map fun jc => (jc.2, ((jc.1 : Int), (0 : Int))),
      p.1 = '.' := by
  intro p hp
  obtain ⟨jc, hjc, rfl⟩ := List.mem_map.1 hp
  exact List.eq_of_mem_replicate (List.snd_mem_of_mem_enum hjc)

/-- The code passes column 2^24 for a Block at column `n`, for every `n` from 2^24 on. -/
theorem calls_dots_block (n : Nat) (h : 16777216 ≤ n) :
    ( EditorLevel.initializeCalls [List.replicate n '.' ++ ['O']]).filter Call.isMakeObject
      = [Call.makeObject TAG_BLOCK (16777216, 0)] := by
  rw [initializeCalls_dots, counterAfter_ge n h, List.filter_append,
    List.filter_replicate_of_neg (by decide)]
  decide

/-- The scan has the Block at column `n`. -/
theorem scan_dots_block (n : Nat) (k : Int) (hk : (n : Int) = k) :
    (scanCells [List.replicate n '.' ++ ['O']]).filterMap
        (fun p => (symbolTag p.1).map fun tag => Call.makeObject tag p.2)
      = [Call.makeObject TAG_BLOCK (k, 0)] := by
  rw [scanCells_dots, List.filterMap_append]
  have h1 : ((List.replicate n '.').enum.map fun jc =>
      (jc.2, ((jc.1 : Int), (0 : Int)))).filterMap
        (fun p => (symbolTag p.1).map fun tag => Call.makeObject tag p.2) = [] := by
    rw [List.filterMap_eq_nil_iff]
    intro p hp
    rw [scan_dots_symbolTag n p hp, show symbolTag '.' = none by decide]
    rfl
  rw [h1, ← hk]
  simp [symbolTag, TAG_BLOCK]

end Editor

namespace Editor

/-- Adding `EditorObject`s keeps the singleton references and adds only tag-0 objects on
cell (0,0). -/
theorem run_addEditorObjects (n : Nat) (L : Level) :
    (L.run (List.replicate n Call.addEditorObject)).mPlayer = L.mPlayer ∧
    (L.run (List.replicate n Call.addEditorObject)).mGoal = L.mGoal ∧
    ∀ o ∈ (L.run (List.replicate n Call.addEditorObject)).objects,
      o ∈ L.objects ∨ ∃ k, o = EditorObject k := by
  induction n generalizing L with
  | zero => exact ⟨rfl, rfl, fun o ho => Or.inl ho⟩
  | succ k ih =>
    rw [List.replicate_succ]
    obtain ⟨h1, h2, h3⟩ := ih (L.exec Call.addEditorObject)
    refine ⟨h1, h2, ?_⟩
    intro o ho
    rcases h3 o ho with h | h
    · simp only [Level.exec, Level.addObject, List.mem_append, List.mem_singleton] at h
      rcases h with h | h
      · exact Or.inl h
      · exact Or.inr ⟨_, h⟩
    · exact Or.inr h

theorem editorObject_cell (k : Nat) : (EditorObject k).cell SIZE = ((0 : Int), (0 : Int)) := by
  simp only [EditorObject, GameObject.cell, SIZE]
  rfl

theorem withTag_addObject_other (L : Level) (o : GameObject) (t : Int) (h : o.tag ≠ t) :
    (L.addObject o).withTag t = L.withTag t := by
  simp [Level.withTag, Level.addObject, List.filter_append, h]

/-- Two `P` behind `n` empty symbols, `n` at least 2^24: both are passed column 2^24, the
first creates the Player there and the second is rejected. -/
theorem initialize_dots_two_players (n : Nat) (h : 16777216 ≤ n) :
    ∃ o, ( EditorLevel.initialize [List.replicate n '.' ++ ['P', 'P']] Level.empty).withTag
        TAG_PLAYER = [o] ∧ o.cell SIZE = (16777216, 0) := by
  unfold EditorLevel.initialize
  rw [initializeCalls_dots, counterAfter_ge n h, run_append]
  obtain ⟨hp, -, hobj⟩ := run_addEditorObjects n Level.empty
  generalize Level.empty.run (List.replicate n Call.addEditorObject) = L1 at hp hobj
  have hobj1 : ∀ o ∈ L1.objects, ∃ k, o = EditorObject k := by
    intro o ho
    rcases hobj o ho with h1 | h1
    · simp [Level.empty] at h1
    · exact h1
  have hcalls : EditorLevel.rowCalls ['P', 'P'] 16777216 0
      = [Call.makeObject TAG_PLAYER (16777216, 0), Call.addEditorObject,
         Call.makeObject TAG_PLAYER (16777216, 0), Call.addEditorObject] := by decide
  rw [hcalls]
  have hempty : L1.getObjectAtPosition (16777216, 0) SIZE = none := by
    rw [getObjectAtPosition_eq_none]
    intro o ho
    obtain ⟨k, rfl⟩ := hobj1 o ho
    rw [editorObject_cell]
    decide
  have hnone : L1.mPlayer = none := hp
  have hw1 : L1.withTag TAG_PLAYER = [] := by
    unfold Level.withTag
    rw [List.filter_eq_nil_iff]
    intro o ho
    obtain ⟨k, rfl⟩ := hobj1 o ho
    simp [EditorObject, TAG_PLAYER]
  have h2 : EditorLevel.makeObject TAG_PLAYER (16777216, 0) L1
      = (L1.setPlayer (EditorPlayer L1.nextId 671088640 0)).addObject
          (EditorPlayer L1.nextId 671088640 0) := by
    rw [makeObject_of_empty_gen TAG_PLAYER (16777216, 0) L1 hempty]
    simp only [if_true, hnone, Option.isSome_none, Bool.false_eq_true, if_false]
    rw [show timesSIZE ((16777216, 0) : Cell).1 = 671088640 by decide,
      show timesSIZE ((16777216, 0) : Cell).2 = 0 by decide]
  simp only [Level.run, List.foldl_cons, List.foldl_nil, Level.exec]
  rw [h2]
  generalize hL2 : (L1.setPlayer (EditorPlayer L1.nextId 671088640 0)).addObject
      (EditorPlayer L1.nextId 671088640 0) = L2
  have hw2 : L2.withTag TAG_PLAYER = [EditorPlayer L1.nextId 671088640 0] := by
    rw [← hL2]
    have : ((L1.setPlayer (EditorPlayer L1.nextId 671088640 0)).addObject
        (EditorPlayer L1.nextId 671088640 0)).withTag TAG_PLAYER
        = L1.withTag TAG_PLAYER ++ [EditorPlayer L1.nextId 671088640 0] := by
      simp [Level.withTag, Level.addObject, Level.setPlayer, List.filter_append,
        EditorPlayer]
    rw [this, hw1]; rfl
  have hocc : ((L2.addObject (EditorObject L2.nextId)).getObjectAtPosition
      (16777216, 0) SIZE).isSome = true := by
    simp only [Level.getObjectAtPosition, List.find?_isSome]
    refine ⟨EditorPlayer L1.nextId 671088640 0, ?_, ?_⟩
    · rw [← hL2]; simp [Level.addObject, Level.setPlayer]
    · simp [EditorPlayer, GameObject.cell, SIZE]
  rw [makeObject_of_occupied TAG_PLAYER (16777216, 0) _ hocc]
  refine ⟨EditorPlayer L1.nextId 671088640 0, ?_, ?_⟩
  · rw [withTag_addObject_other _ _ _ (by simp [EditorObject, TAG_PLAYER]),
      withTag_addObject_other _ _ _ (by simp [EditorObject, TAG_PLAYER]), hw2]
  · simp [EditorPlayer, GameObject.cell, SIZE]

/-- The scan has the two `P` at columns `n` and `n + 1`. -/
theorem scan_dots_two_players (n : Nat) (k : Int) (hk : ((n + 1 : Nat) : Int) = k) :
    (scanCells [List.replicate n '.' ++ ['P', 'P']]).filter (fun p => decide (p.1 = 'P'))
      = [('P', ((n : Int), 0)), ('P', (k, 0))] := by
  rw [scanCells_dots, List.filter_append]
  have h1 : ((List.replicate n '.').enum.map fun jc =>
      (jc.2, ((jc.1 : Int), (0 : Int)))).filter (fun p => decide (p.1 = 'P')) = [] := by
    rw [List.filter_eq_nil_iff]
    intro p hp
    rw [scan_dots_symbolTag n p hp]
    decide
  rw [h1, ← hk]
  simp

end Editor

namespace Editor

/-! ## Every placed entity is what the lookup reports at its cell -/

theorem entities_addObject (L : Level) (o : GameObject) :
    (L.addObject o).entities
      = L.entities ++ (if isEntityTag o.tag = true then [o] else []) := by
  unfold Level.entities Level.addObject
  simp only [List.filter_append, List.filter_cons, List.filter_nil]

/-- Appending an object keeps the entities visible, provided that a new entity is put on
an empty cell. -/
theorem visible_addObject {L : Level} (hv : L.EntitiesVisible) (o : GameObject)
    (hnew : isEntityTag o.tag = true → L.getObjectAtPosition (o.cell SIZE) SIZE = none) :
    (L.addObject o).EntitiesVisible := by
  intro e he
  rw [entities_addObject] at he
  have hfind : ∀ d, (L.addObject o).getObjectAtPosition d SIZE
      = (L.getObjectAtPosition d SIZE).or
          (if o.cell SIZE = d then some o else none) := by
    intro d
    simp only [Level.getObjectAtPosition, Level.addObject, List.find?_append,
      List.find?_cons, List.find?_nil]
    by_cases h : o.cell SIZE = d <;> simp [h]
  rw [hfind]
  rcases List.mem_append.1 he with h | h
  · rw [hv e h]; rfl
  · by_cases ht : isEntityTag o.tag = true
    · rw [if_pos ht, List.mem_singleton] at h
      subst h
      rw [hnew ht]
      simp
    · rw [if_neg ht] at h
      simp at h

theorem entities_map_relocate (L M : Level) (i : Nat) (c : Cell)
    (hM : M.objects = L.objects.map (relocate i c SIZE)) :
    M.entities = L.entities.map (relocate i c SIZE) := by
  simp only [Level.entities, hM, List.filter_map]
  have hcomp : ((fun o : GameObject => isEntityTag o.tag) ∘ relocate i c SIZE)
      = fun o : GameObject => isEntityTag o.tag := by
    funext o; simp
  rw [hcomp]

/-- Relocating the object with identity `i` to an empty cell keeps the entities
visible. -/
theorem visible_relocate {L M : Level} (hL : L.WF) (hv : L.EntitiesVisible) (i : Nat)
    (c : Cell) (hempty : L.getObjectAtPosition c SIZE = none)
    (hM : M.objects = L.objects.map (relocate i c SIZE)) : M.EntitiesVisible := by
  have hfree := getObjectAtPosition_eq_none.1 hempty
  intro e2 he2
  rw [entities_map_relocate L M i c hM] at he2
  obtain ⟨e, he, rfl⟩ := List.mem_map.1 he2
  have hem : e ∈ L.objects := (List.mem_filter.1 he).1
  have hve := hv e he
  unfold Level.getObjectAtPosition at hve ⊢
  rw [hM, List.find?_map]
  obtain ⟨hpe, as, bs, hl, has⟩ := List.find?_eq_some.1 hve
  have hgoal : L.objects.find?
      ((fun o => decide (o.cell SIZE = (relocate i c SIZE e).cell SIZE)) ∘ relocate i c SIZE)
      = some e := by
    by_cases hei : e.id = i
    · -- the relocated object itself
      rw [relocate_cell i c e hei]
      rw [List.find?_eq_some]
      obtain ⟨as2, bs2, hl2, has2⟩ : ∃ as2 bs2, L.objects = as2 ++ e :: bs2 ∧
          ∀ a ∈ as2, a ∈ L.objects ∧ a ≠ e := by
        obtain ⟨as2, bs2, hl2⟩ := List.append_of_mem hem
        refine ⟨as2, bs2, hl2, fun a ha => ⟨by rw [hl2]; simp [ha], ?_⟩⟩
        intro hae
        have hnd : L.objects.Nodup := List.Nodup.of_map _ hL.ids_nodup
        rw [hl2] at hnd
        have := (List.nodup_append.1 hnd).2.2
        exact this (hae ▸ ha) (by simp)
      refine ⟨by simp [relocate_cell i c e hei], as2, bs2, hl2, ?_⟩
      intro a ha
      obtain ⟨ham, hane⟩ := has2 a ha
      have hai : a.id ≠ i := fun h => hane (hL.eq_of_id_eq ham hem (by rw [h, hei]))
      simp only [Function.comp, relocate_of_ne i c SIZE a hai]
      simpa using hfree a ham
    · -- another entity
      rw [relocate_of_ne i c SIZE e hei]
      have hdc : e.cell SIZE ≠ c := hfree e hem
      rw [List.find?_eq_some]
      refine ⟨by simp [Function.comp, relocate_of_ne i c SIZE e hei], as, bs, hl, ?_⟩
      intro a ha
      by_cases hai : a.id = i
      · simp only [Function.comp, relocate_cell i c a hai]
        simpa using fun h : c = e.cell SIZE => hdc h.symm
      · simp only [Function.comp, relocate_of_ne i c SIZE a hai]
        exact has a ha
  rw [hgoal]
  rfl

theorem find?_erase_of_not {α : Type} [DecidableEq α] (p : α → Bool) (l : List α) (o : α)
    (h : p o = false) : (l.erase o).find? p = l.find? p := by
  induction l with
  | nil => rfl
  | cons a t ih =>
    by_cases hao : a = o
    · subst hao
      simp [List.find?_cons, h]
    · have : (a == o) = false := by simpa using hao
      rw [List.erase_cons, this]
      simp only [Bool.false_eq_true, if_false, List.find?_cons, ih]

theorem visible_makeObject {L : Level} (hL : L.WF) (hv : L.EntitiesVisible) (tag : Int)
    (c : Cell) (hr : CellInRange c) : (EditorLevel.makeObject tag c L).EntitiesVisible := by
  cases hocc : L.getObjectAtPosition c SIZE with
  | some e => rw [makeObject_of_occupied tag c L (by simp [hocc])]; exact hv
  | none =>
    have hc : ∀ i w h t b, GameObject.cell ⟨i, c.1 * SIZE, c.2 * SIZE, w, h, t, b⟩ SIZE = c :=
      fun i w h t b => cell_of_corner i _ _ w h t b c rfl rfl
    rw [makeObject_of_empty tag c L hr hocc]
    split_ifs with h1 h2 h3 h4 h5 h6 h7
    · cases hp : L.mPlayer with
      | none => simp [hp] at h2
      | some i =>
        simp only [Level.movePlayer, hp]
        exact visible_relocate hL hv i c hocc rfl
    · have hv2 : (L.setPlayer (EditorPlayer L.nextId (c.1 * SIZE) (c.2 * SIZE))).EntitiesVisible :=
        hv
      exact visible_addObject hv2 _ (fun _ => by rw [EditorPlayer, hc]; exact hocc)
    · cases hp : L.mGoal with
      | none => simp [hp] at h4
      | some i =>
        simp only [Level.moveGoal, hp]
        exact visible_relocate hL hv i c hocc rfl
    · have hv2 : (L.setGoal (EditorGoal L.nextId (c.1 * SIZE) (c.2 * SIZE))).EntitiesVisible :=
        hv
      exact visible_addObject hv2 _ (fun _ => by rw [EditorGoal, hc]; exact hocc)
    · exact visible_addObject hv _ (fun _ => by rw [EditorBlock, hc]; exact hocc)
    · exact visible_addObject hv _ (fun _ => by rw [EditorEnemy, hc]; exact hocc)
    · exact visible_addObject hv _ (fun _ => by rw [EditorCollectible, hc]; exact hocc)
    · exact hv

theorem visible_removeObjectAtMouse {L : Level} (hL : L.WF) (hv : L.EntitiesVisible)
    (c : Cell) : (L.removeObjectAtMouse c SIZE).EntitiesVisible := by
  unfold Level.removeObjectAtMouse
  cases hocc : L.getObjectAtPosition c SIZE with
  | none => exact hv
  | some o =>
    have hnd : L.objects.Nodup := List.Nodup.of_map _ hL.ids_nodup
    obtain ⟨hom, hoc⟩ := getObjectAtPosition_some_mem hocc
    intro e he
    simp only [Level.entities, List.mem_filter] at he
    obtain ⟨hem, hent⟩ := he
    obtain ⟨hne, hem2⟩ := (List.Nodup.mem_erase_iff hnd).1 hem
    have hve := hv e (List.mem_filter.2 ⟨hem2, hent⟩)
    have hdc : o.cell SIZE ≠ e.cell SIZE := by
      intro h
      rw [← h, hoc, hocc] at hve
      exact hne (Option.some.inj hve).symm
    unfold Level.getObjectAtPosition at hve ⊢
    simp only
    rw [find?_erase_of_not _ _ _ (by simpa using hdc)]
    exact hve

theorem visible_exec {L : Level} (hL : L.WF) (hv : L.EntitiesVisible) (call : Call)
    (hc : call.InRange) : (L.exec call).EntitiesVisible := by
  cases call with
  | makeObject tag position => exact visible_makeObject hL hv tag position hc
  | removeObjectAtMouse position => exact visible_removeObjectAtMouse hL hv position
  | exportAndSave => exact hv
  | addEditorObject =>
    exact visible_addObject hv _ (fun h => absurd h (by simp [EditorObject, isEntityTag,
      TAG_PLAYER, TAG_GOAL, TAG_BLOCK, TAG_ENEMY, TAG_COLLECTIBLE]))

/-- Every level reached by calls with in-range cells from a consistent level with
visible entities is consistent and has visible entities. -/
theorem visible_run (cs : List Call) {L : Level} (hL : L.WF) (hv : L.EntitiesVisible)
    (hcs : ∀ call ∈ cs, call.InRange) : (L.run cs).WF ∧ (L.run cs).EntitiesVisible := by
  induction cs generalizing L with
  | nil => exact ⟨hL, hv⟩
  | cons a t ih =>
    exact ih (hL.exec a) (visible_exec hL hv a (hcs a (by simp)))
      (fun call hcall => hcs call (by simp [hcall]))

theorem visible_empty : Level.empty.EntitiesVisible := by
  intro o ho; simp [Level.empty, Level.entities] at ho

/-- In a consistent level with visible entities the three invariants hold. -/
theorem invariants_of_visible {L : Level} (hL : L.WF) (hv : L.EntitiesVisible) :
    L.Invariants := by
  refine ⟨?_, hL.withTag_player_le, hL.withTag_goal_le⟩
  have hnd : L.entities.Nodup :=
    List.Nodup.sublist (List.filter_sublist _) (List.Nodup.of_map _ hL.ids_nodup)
  refine List.Nodup.map_on ?_ hnd
  intro x hx y hy hxy
  have h1 := hv x hx
  have h2 := hv y hy
  rw [hxy, h2] at h1
  exact (Option.some.inj h1).symm

end Editor

namespace Editor

theorem scanCells_inRange (layout : List (List Char)) (hw : LayoutWithin 3355445 layout)
    (p : Char × Cell) (hp : p ∈ scanCells layout) : CellInRange p.2 := by
  simp only [scanCells, List.mem_flatMap, List.mem_map] at hp
  obtain ⟨ir, hir, jc, hjc, rfl⟩ := hp
  have h1 := List.fst_lt_of_mem_enum hir
  have h2 := List.fst_lt_of_mem_enum hjc
  have h3 := hw.2 ir.2 (List.snd_mem_of_mem_enum hir)
  have h4 := hw.1
  unfold CellInRange EXACT_MAX
  refine ⟨?_, ?_, ?_, ?_⟩ <;> simp only <;> omega

/-- The layout loop of a layout within the exact range only makes in-range calls. -/
theorem initializeCalls_inRange (layout : List (List Char))
    (hw : LayoutWithin 3355445 layout) :
    ∀ call ∈ EditorLevel.initializeCalls layout, call.InRange := by
  rw [initializeCalls_eq_scan layout (hw.mono (by decide))]
  intro call hcall
  obtain ⟨p, hp, hcp⟩ := List.mem_flatMap.1 hcall
  unfold scanStep at hcp
  rcases List.mem_append.1 hcp with h | h
  · cases hs : symbolTag p.1 with
    | none => rw [hs] at h; simp at h
    | some t =>
      rw [hs] at h
      simp only [List.mem_singleton] at h
      subst h
      exact scanCells_inRange layout hw p hp
  · simp only [List.mem_singleton] at h
    subst h
    trivial

/-- A level loaded from a layout within the exact range and then edited by in-range calls
is consistent, has visible entities and satisfies the three invariants. -/
theorem loaded_level_visible (layout : List (List Char)) (hw : LayoutWithin 3355445 layout)
    (cs : List Call) (hcs : ∀ call ∈ cs, call.InRange) :
    (( EditorLevel.initialize layout Level.empty).run cs).WF ∧
    (( EditorLevel.initialize layout Level.empty).run cs).EntitiesVisible ∧
    (( EditorLevel.initialize layout Level.empty).run cs).Invariants := by
  obtain ⟨h1, h2⟩ := visible_run (EditorLevel.initializeCalls layout) WF_empty visible_empty
    (initializeCalls_inRange layout hw)
  obtain ⟨h3, h4⟩ := visible_run cs h1 h2 hcs
  exact ⟨h3, h4, invariants_of_visible h3 h4⟩

end Editor
namespace Editor

/-- C7: whatever the seven key states and the pointer cell, one `update` issues at most
one command, namely that of the first key that is down in the order P, E, G, O, SPACE,
C, S, and none when no key is down. -/
theorem update_first_key_wins (k : Keys) (m : Cell) :
    (MouseControlComponent.update k m).length ≤ 1 ∧
    (k.playerKey = true →
      MouseControlComponent.update k m = [Call.makeObject TAG_PLAYER m]) ∧
    (k.playerKey = false → k.enemyKey = true →
      MouseControlComponent.update k m = [Call.makeObject TAG_ENEMY m]) ∧
    (k.playerKey = false → k.enemyKey = false → k.goalKey = true →
      MouseControlComponent.update k m = [Call.makeObject TAG_GOAL m]) ∧
    (k.playerKey = false → k.enemyKey = false → k.goalKey = false → k.blockKey = true →
      MouseControlComponent.update k m = [Call.makeObject TAG_BLOCK m]) ∧
    (k.playerKey = false → k.enemyKey = false → k.goalKey = false → k.blockKey = false →
      k.deleteKey = true →
      MouseControlComponent.update k m = [Call.removeObjectAtMouse m]) ∧
    (k.playerKey = false → k.enemyKey = false → k.goalKey = false → k.blockKey = false →
      k.deleteKey = false → k.collectibleKey = true →
      MouseControlComponent.update k m = [Call.makeObject TAG_COLLECTIBLE m]) ∧
    (k.playerKey = false → k.enemyKey = false → k.goalKey = false → k.blockKey = false →
      k.deleteKey = false → k.collectibleKey = false → k.saveKey = true →
      MouseControlComponent.update k m = [Call.exportAndSave]) ∧
    (k.playerKey = false → k.enemyKey = false → k.goalKey = false → k.blockKey = false →
      k.deleteKey = false → k.collectibleKey = false → k.saveKey = false →
      MouseControlComponent.update k m = []) := by
  obtain ⟨p, e, g, o, d, c, s⟩ := k
  cases p <;> cases e <;> cases g <;> cases o <;> cases d <;> cases c <;> cases s <;>
    simp [MouseControlComponent.update]

/-- C2: when the occupancy lookup finds an entity at the target cell, `makeObject` changes
nothing, whatever the tag: same registry, same player and goal references, and the
lookup at the cell still reports the same entity. -/
theorem makeObject_occupied_noop (tag : Int) (c : Cell) (L : Level) (e : GameObject)
    (h : L.getObjectAtPosition c SIZE = some e) :
    EditorLevel.makeObject tag c L = L ∧
    (EditorLevel.makeObject tag c L).objects = L.objects ∧
    (EditorLevel.makeObject tag c L).mPlayer = L.mPlayer ∧
    (EditorLevel.makeObject tag c L).mGoal = L.mGoal ∧
    (EditorLevel.makeObject tag c L).getObjectAtPosition c SIZE = some e := by
  have hL : EditorLevel.makeObject tag c L = L :=
    makeObject_of_occupied tag c L (by simp [h])
  rw [hL]
  exact ⟨rfl, rfl, rfl, rfl, h⟩

/-- C2, scenario: `place(Block,(0,0))` then `place(Enemy,(0,0))` leaves the Block at (0,0)
and adds no Enemy. -/
theorem makeObject_occupied_noop_witness :
    (EditorLevel.makeObject TAG_BLOCK (0, 0) Level.empty).getObjectAtPosition (0, 0) SIZE
      = some (EditorBlock 0 0 0) ∧
    (EditorLevel.makeObject TAG_ENEMY (0, 0)
        (EditorLevel.makeObject TAG_BLOCK (0, 0) Level.empty)
      = EditorLevel.makeObject TAG_BLOCK (0, 0) Level.empty ∧
    (EditorLevel.makeObject TAG_ENEMY (0, 0)
        (EditorLevel.makeObject TAG_BLOCK (0, 0) Level.empty)).objects
      = (EditorLevel.makeObject TAG_BLOCK (0, 0) Level.empty).objects ∧
    (EditorLevel.makeObject TAG_ENEMY (0, 0)
        (EditorLevel.makeObject TAG_BLOCK (0, 0) Level.empty)).mPlayer
      = (EditorLevel.makeObject TAG_BLOCK (0, 0) Level.empty).mPlayer ∧
    (EditorLevel.makeObject TAG_ENEMY (0, 0)
        (EditorLevel.makeObject TAG_BLOCK (0, 0) Level.empty)).mGoal
      = (EditorLevel.makeObject TAG_BLOCK (0, 0) Level.empty).mGoal ∧
    (EditorLevel.makeObject TAG_ENEMY (0, 0)
        (EditorLevel.makeObject TAG_BLOCK (0, 0) Level.empty)).getObjectAtPosition
        (0, 0) SIZE = some (EditorBlock 0 0 0)) :=
  ⟨by decide,
    makeObject_occupied_noop TAG_ENEMY (0, 0)
      (EditorLevel.makeObject TAG_BLOCK (0, 0) Level.empty) (EditorBlock 0 0 0) (by decide)⟩
end Editor

namespace Editor

/-- C8, as stated, fails at a cell beyond the exact range: the Block that
`makeObject(Block, (3355445, 0))` adds to the empty level has the `float` product 134217792
as its x position, not 3355445 * 40 = 134217800, and dividing it by `SIZE` gives cell
(3355444, 0), not (3355445, 0). -/
theorem makeObject_plain_position_rounded :
    Level.empty.getObjectAtPosition (3355445, 0) SIZE = none ∧
    (EditorLevel.makeObject TAG_BLOCK (3355445, 0) Level.empty).objects
      = [EditorBlock 0 134217792 0] ∧
    (EditorBlock 0 134217792 0).x ≠ ((3355445, 0) : Cell).1 * SIZE ∧
    (EditorBlock 0 134217792 0).cell SIZE = (3355444, 0) ∧
    (EditorBlock 0 134217792 0).cell SIZE ≠ (3355445, 0) := by
  decide

/-- C8, amended: for a tag among Block, Enemy, Collectible and a cell that the lookup
reports empty, `makeObject` appends exactly one new object to the registry, with that tag,
at the position given by the two `float` products with `SIZE`, and leaves the existing
objects and the player and goal references as they were; when both coordinates of the
cell have magnitude at most 3355444 the products are exact, the position is
`(c.1 * SIZE, c.2 * SIZE)` and its cell is `c` again. -/
theorem makeObject_plain_adds_one (t : Int) (c : Cell) (L : Level)
    (ht : t = TAG_BLOCK ∨ t = TAG_ENEMY ∨ t = TAG_COLLECTIBLE)
    (hempty : L.getObjectAtPosition c SIZE = none) :
    ∃ o : GameObject,
      (EditorLevel.makeObject t c L).objects = L.objects ++ [o] ∧
      o.id = L.nextId ∧ o.tag = t ∧ o.x = timesSIZE c.1 ∧ o.y = timesSIZE c.2 ∧
      (EditorLevel.makeObject t c L).mPlayer = L.mPlayer ∧
      (EditorLevel.makeObject t c L).mGoal = L.mGoal ∧
      (CellInRange c → o.x = c.1 * SIZE ∧ o.y = c.2 * SIZE ∧ o.cell SIZE = c) := by
  rw [makeObject_of_empty_gen t c L hempty]
  have hex : ∀ i w h tg b, CellInRange c →
      (⟨i, timesSIZE c.1, timesSIZE c.2, w, h, tg, b⟩ : GameObject).x = c.1 * SIZE ∧
      (⟨i, timesSIZE c.1, timesSIZE c.2, w, h, tg, b⟩ : GameObject).y = c.2 * SIZE ∧
      (⟨i, timesSIZE c.1, timesSIZE c.2, w, h, tg, b⟩ : GameObject).cell SIZE = c :=
    fun i w h tg b hr => ⟨timesSIZE_exact _ hr.1 hr.2.1, timesSIZE_exact _ hr.2.2.1 hr.2.2.2,
      cell_of_timesSIZE i w h tg b c hr⟩
  rcases ht with h | h | h
  · subst h
    exact ⟨EditorBlock L.nextId (timesSIZE c.1) (timesSIZE c.2), rfl, rfl, rfl, rfl, rfl,
      rfl, rfl, hex _ _ _ _ _⟩
  · subst h
    exact ⟨EditorEnemy L.nextId (timesSIZE c.1) (timesSIZE c.2), rfl, rfl, rfl, rfl, rfl,
      rfl, rfl, hex _ _ _ _ _⟩
  · subst h
    exact ⟨EditorCollectible L.nextId (timesSIZE c.1) (timesSIZE c.2), rfl, rfl, rfl, rfl,
      rfl, rfl, rfl, hex _ _ _ _ _⟩

/-- C8, amended, at a concrete input: a second Block, placed on the empty cell (1,0) of a
level that already holds a Block at (0,0). -/
theorem makeObject_plain_adds_one_witness :
    (TAG_BLOCK = TAG_BLOCK ∨ TAG_BLOCK = TAG_ENEMY ∨ TAG_BLOCK = TAG_COLLECTIBLE) ∧
    (EditorLevel.makeObject TAG_BLOCK (0, 0) Level.empty).getObjectAtPosition (1, 0) SIZE
      = none ∧
    ∃ o : GameObject,
      (EditorLevel.makeObject TAG_BLOCK (1, 0)
          (EditorLevel.makeObject TAG_BLOCK (0, 0) Level.empty)).objects
        = (EditorLevel.makeObject TAG_BLOCK (0, 0) Level.empty).objects ++ [o] ∧
      o.id = (EditorLevel.makeObject TAG_BLOCK (0, 0) Level.empty).nextId ∧
      o.tag = TAG_BLOCK ∧ o.x = timesSIZE ((1, 0) : Cell).1 ∧
      o.y = timesSIZE ((1, 0) : Cell).2 ∧
      (EditorLevel.makeObject TAG_BLOCK (1, 0)
          (EditorLevel.makeObject TAG_BLOCK (0, 0) Level.empty)).mPlayer
        = (EditorLevel.makeObject TAG_BLOCK (0, 0) Level.empty).mPlayer ∧
      (EditorLevel.makeObject TAG_BLOCK (1, 0)
          (EditorLevel.makeObject TAG_BLOCK (0, 0) Level.empty)).mGoal
        = (EditorLevel.makeObject TAG_BLOCK (0, 0) Level.empty).mGoal ∧
      (CellInRange (1, 0) →
        o.x = ((1, 0) : Cell).1 * SIZE ∧ o.y = ((1, 0) : Cell).2 * SIZE ∧
        o.cell SIZE = (1, 0)) :=
  ⟨Or.inl rfl, by decide,
    makeObject_plain_adds_one TAG_BLOCK (1, 0)
      (EditorLevel.makeObject TAG_BLOCK (0, 0) Level.empty) (Or.inl rfl) (by decide)⟩

/-- C9, as stated, fails at a cell beyond the exact range: the Block placed at
(3355445, 0) lands on cell (3355444, 0), the lookup at (3355445, 0) still reports nothing,
and the second `makeObject(Block, (3355445, 0))` adds a second Block. -/
theorem makeObject_twice_adds_two :
    (EditorLevel.makeObject TAG_BLOCK (3355445, 0) Level.empty).objects
      = [EditorBlock 0 134217792 0] ∧
    (EditorLevel.makeObject TAG_BLOCK (3355445, 0)
        (EditorLevel.makeObject TAG_BLOCK (3355445, 0) Level.empty)).objects
      = [EditorBlock 0 134217792 0, EditorBlock 1 134217792 0] ∧
    EditorLevel.makeObject TAG_BLOCK (3355445, 0)
        (EditorLevel.makeObject TAG_BLOCK (3355445, 0) Level.empty)
      ≠ EditorLevel.makeObject TAG_BLOCK (3355445, 0) Level.empty := by
  decide

/-- C9, amended: for a cell whose coordinates have magnitude at most 3355444, placing
twice with the same tag at the cell leaves the level in the same state as placing once,
from every level state.  In particular `place(Player,(1,1))` twice from the empty level
leaves exactly one Player, at (1,1), and two ticks with only the Block key down over such
a cell of the empty level yield one Block. -/
theorem makeObject_twice_eq_once (tag : Int) (c : Cell) (L : Level) (hr : CellInRange c) :
    EditorLevel.makeObject tag c (EditorLevel.makeObject tag c L)
      = EditorLevel.makeObject tag c L ∧
    (Level.empty.run [Call.makeObject TAG_PLAYER (1, 1),
        Call.makeObject TAG_PLAYER (1, 1)]).objects = [EditorPlayer 0 40 40] ∧
    (Level.empty.run
        (MouseControlComponent.update ⟨false, false, false, true, false, false, false⟩ c ++
         MouseControlComponent.update ⟨false, false, false, true, false, false, false⟩ c)
      ).objects = [EditorBlock 0 (c.1 * SIZE) (c.2 * SIZE)] := by
  refine ⟨makeObject_idem tag c L hr, by decide, ?_⟩
  have h1 : EditorLevel.makeObject TAG_BLOCK c Level.empty
      = Level.empty.addObject (EditorBlock 0 (c.1 * SIZE) (c.2 * SIZE)) := by
    rw [makeObject_of_empty TAG_BLOCK c Level.empty hr
      (by simp [Level.getObjectAtPosition, Level.empty])]
    rfl
  simp only [MouseControlComponent.update, Level.run, List.foldl, Level.exec,
    List.cons_append, List.nil_append, Bool.false_eq_true, if_false, if_true]
  rw [makeObject_idem _ _ _ hr, h1]
  rfl

/-- C9, amended, at a concrete input: the Player placed twice at (1,1) of the empty
level. -/
theorem makeObject_twice_eq_once_witness :
    CellInRange (1, 1) ∧
    EditorLevel.makeObject TAG_PLAYER (1, 1)
        (EditorLevel.makeObject TAG_PLAYER (1, 1) Level.empty)
      = EditorLevel.makeObject TAG_PLAYER (1, 1) Level.empty ∧
    (Level.empty.run [Call.makeObject TAG_PLAYER (1, 1),
        Call.makeObject TAG_PLAYER (1, 1)]).objects = [EditorPlayer 0 40 40] ∧
    (Level.empty.run
        (MouseControlComponent.update ⟨false, false, false, true, false, false, false⟩
          (1, 1) ++
         MouseControlComponent.update ⟨false, false, false, true, false, false, false⟩
          (1, 1))
      ).objects = [EditorBlock 0 (((1, 1) : Cell).1 * SIZE) (((1, 1) : Cell).2 * SIZE)] :=
  ⟨by unfold CellInRange EXACT_MAX; decide,
    makeObject_twice_eq_once TAG_PLAYER (1, 1) Level.empty
      (by unfold CellInRange EXACT_MAX; decide)⟩

end Editor

namespace Editor

/-- C1, as stated, fails for cells beyond the exact range: after `place(Block, (3355444, 0))`
and `place(Block, (3355445, 0))` on the empty level the two Blocks have the x positions
134217760 and 134217792 (the `float` product for 3355445), and both occupy cell
(3355444, 0). -/
theorem edit_sequence_shares_cell :
    (Level.empty.run (([EditOp.place TAG_BLOCK (3355444, 0),
        EditOp.place TAG_BLOCK (3355445, 0)].take 2).map EditOp.toCall)).objects
      = [EditorBlock 0 134217760 0, EditorBlock 1 134217792 0] ∧
    (Level.empty.run (([EditOp.place TAG_BLOCK (3355444, 0),
        EditOp.place TAG_BLOCK (3355445, 0)].take 2).map EditOp.toCall)).entities.map
        (fun o => o.cell SIZE)
      = [(3355444, 0), (3355444, 0)] ∧
    ¬ (Level.empty.run (([EditOp.place TAG_BLOCK (3355444, 0),
        EditOp.place TAG_BLOCK (3355445, 0)].take 2).map EditOp.toCall)).Invariants := by
  refine ⟨by decide, by decide, ?_⟩
  unfold Level.Invariants
  decide

/-- C1, amended: after every operation of every sequence of `place` (`makeObject`, any
tag, any cell whose coordinates have magnitude at most 3355444) and `removeAt`
(`removeObjectAtMouse`, any cell) operations applied to the empty level, no two entities
of the registry (indeed no two objects) occupy the same cell, at most one has tag Player
and at most one has tag Goal. -/
theorem edit_sequence_invariants (ops : List EditOp) (k : Nat)
    (hops : ∀ op ∈ ops, op.InRange) :
    (Level.empty.run ((ops.take k).map EditOp.toCall)).Invariants ∧
    ((Level.empty.run ((ops.take k).map EditOp.toCall)).objects.map
      (fun o => o.cell SIZE)).Nodup := by
  obtain ⟨hwf, hcell⟩ :=
    edit_run_invariant (ops.take k) Level.empty WF_empty (by simp [Level.empty])
      (fun op hop => hops op (List.mem_of_mem_take hop))
  exact ⟨⟨List.Nodup.sublist ((List.filter_sublist _).map _) hcell, hwf.withTag_player_le,
    hwf.withTag_goal_le⟩, hcell⟩

/-- C1, amended, at a concrete input: Player, Block, a removal of the Block, a second
Player placement and a Goal, looked at after four operations. -/
theorem edit_sequence_invariants_witness :
    (∀ op ∈ [EditOp.place TAG_PLAYER (0, 0), EditOp.place TAG_BLOCK (1, 0),
        EditOp.removeAt (1, 0), EditOp.place TAG_PLAYER (1, 0),
        EditOp.place TAG_GOAL (2, 2)], op.InRange) ∧
    (Level.empty.run (([EditOp.place TAG_PLAYER (0, 0), EditOp.place TAG_BLOCK (1, 0),
        EditOp.removeAt (1, 0), EditOp.place TAG_PLAYER (1, 0),
        EditOp.place TAG_GOAL (2, 2)].take 4).map EditOp.toCall)).Invariants ∧
    ((Level.empty.run (([EditOp.place TAG_PLAYER (0, 0), EditOp.place TAG_BLOCK (1, 0),
        EditOp.removeAt (1, 0), EditOp.place TAG_PLAYER (1, 0),
        EditOp.place TAG_GOAL (2, 2)].take 4).map EditOp.toCall)).objects.map
      (fun o => o.cell SIZE)).Nodup :=
  ⟨by simp [EditOp.InRange, CellInRange, EXACT_MAX],
    edit_sequence_invariants [EditOp.place TAG_PLAYER (0, 0), EditOp.place TAG_BLOCK (1, 0),
        EditOp.removeAt (1, 0), EditOp.place TAG_PLAYER (1, 0),
        EditOp.place TAG_GOAL (2, 2)] 4 (by simp [EditOp.InRange, CellInRange, EXACT_MAX])⟩

end Editor

namespace Editor

/-- C5, as stated, fails for a row longer than 2^24 characters: for the one-row layout of
16777217 `.` followed by an `O`, the `O` has columnIndex 16777217, but the `float` counter
`xPos` stops at 16777216 and the loop calls `makeObject(Block, (16777216, 0))`. -/
theorem initialize_calls_long_row :
    ( EditorLevel.initializeCalls [List.replicate 16777217 '.' ++ ['O']]).filter
        Call.isMakeObject
      = [Call.makeObject TAG_BLOCK (16777216, 0)] ∧
    (scanCells [List.replicate 16777217 '.' ++ ['O']]).filterMap
        (fun p => (symbolTag p.1).map fun tag => Call.makeObject tag p.2)
      = [Call.makeObject TAG_BLOCK (16777217, 0)] ∧
    ( EditorLevel.initializeCalls [List.replicate 16777217 '.' ++ ['O']]).filter
        Call.isMakeObject
      ≠ (scanCells [List.replicate 16777217 '.' ++ ['O']]).filterMap
        (fun p => (symbolTag p.1).map fun tag => Call.makeObject tag p.2) := by
  have h1 := calls_dots_block 16777217 (by decide)
  have h2 := scan_dots_block 16777217 16777217 rfl
  refine ⟨h1, h2, ?_⟩
  rw [h1, h2]
  decide

/-- C5, amended: for every layout of at most 16777217 rows of at most 16777217 characters
each (rows of any, possibly differing, lengths), the `makeObject` calls of the layout loop
of `initialize` are, in scan order (rows top to bottom, characters left to right), one call
`makeObject(tag, (columnIndex, rowIndex))` for each character that is `O` (Block), `P`
(Player), `G` (Goal), `E` (Enemy) or `C` (Collectible), and none for any other character;
decoding `["O.P", "..G"]` into the empty level yields as entities exactly Block at (0,0),
Player at (2,0) and Goal at (2,1). -/
theorem initialize_calls_makeObject_per_symbol (layout : List (List Char))
    (hw : LayoutWithin 16777217 layout) :
    ( EditorLevel.initializeCalls layout).filter Call.isMakeObject
      = (scanCells layout).filterMap
          (fun p => (symbolTag p.1).map fun tag => Call.makeObject tag p.2) ∧
    symbolTag 'O' = some TAG_BLOCK ∧ symbolTag 'P' = some TAG_PLAYER ∧
    symbolTag 'G' = some TAG_GOAL ∧ symbolTag 'E' = some TAG_ENEMY ∧
    symbolTag 'C' = some TAG_COLLECTIBLE ∧
    (∀ ch : Char, ch ≠ 'O' → ch ≠ 'P' → ch ≠ 'G' → ch ≠ 'E' → ch ≠ 'C' →
      symbolTag ch = none) ∧
    scanCells ["O.P".toList, "..G".toList]
      = [('O', (0, 0)), ('.', (1, 0)), ('P', (2, 0)),
         ('.', (0, 1)), ('.', (1, 1)), ('G', (2, 1))] ∧
    ( EditorLevel.initialize ["O.P".toList, "..G".toList] Level.empty).pairs
      = [(TAG_BLOCK, (0, 0)), (TAG_PLAYER, (2, 0)), (TAG_GOAL, (2, 1))] := by
  refine ⟨?_, by decide, by decide, by decide, by decide, by decide, ?_, by decide,
    by decide⟩
  · rw [initializeCalls_eq_scan layout hw]
    exact flatMap_scanStep_filter_makeObject _
  · intro ch h1 h2 h3 h4 h5
    simp [symbolTag, h1, h2, h3, h4, h5]

/-- C5, amended, at a concrete input: the layout `["O.P", "..G"]`. -/
theorem initialize_calls_makeObject_per_symbol_witness :
    LayoutWithin 16777217 ["O.P".toList, "..G".toList] ∧
    ( EditorLevel.initializeCalls ["O.P".toList, "..G".toList]).filter Call.isMakeObject
      = (scanCells ["O.P".toList, "..G".toList]).filterMap
          (fun p => (symbolTag p.1).map fun tag => Call.makeObject tag p.2) ∧
    symbolTag 'O' = some TAG_BLOCK ∧ symbolTag 'P' = some TAG_PLAYER ∧
    symbolTag 'G' = some TAG_GOAL ∧ symbolTag 'E' = some TAG_ENEMY ∧
    symbolTag 'C' = some TAG_COLLECTIBLE ∧
    (∀ ch : Char, ch ≠ 'O' → ch ≠ 'P' → ch ≠ 'G' → ch ≠ 'E' → ch ≠ 'C' →
      symbolTag ch = none) ∧
    scanCells ["O.P".toList, "..G".toList]
      = [('O', (0, 0)), ('.', (1, 0)), ('P', (2, 0)),
         ('.', (0, 1)), ('.', (1, 1)), ('G', (2, 1))] ∧
    ( EditorLevel.initialize ["O.P".toList, "..G".toList] Level.empty).pairs
      = [(TAG_BLOCK, (0, 0)), (TAG_PLAYER, (2, 0)), (TAG_GOAL, (2, 1))] :=
  ⟨by unfold LayoutWithin; decide,
    initialize_calls_makeObject_per_symbol ["O.P".toList, "..G".toList]
      (by unfold LayoutWithin; decide)⟩

/-- C10: for every layout the layout loop of `initialize` adds exactly one `EditorObject`
(tag 0, position (0,0), size 0x0, with a `MouseControlComponent`) per character, whatever
the character: run on the empty level, a layout with `n` characters yields a registry
whose tag-0 objects are `n` such objects, next to the placed entities. -/
theorem initialize_adds_controller_per_character (layout : List (List Char)) :
    ( EditorLevel.initializeCalls layout).count Call.addEditorObject = layoutSize layout ∧
    (∃ ks : List Nat, ks.length = layoutSize layout ∧
      ( EditorLevel.initialize layout Level.empty).withTag 0 = ks.map EditorObject) ∧
    (∀ o ∈ ( EditorLevel.initialize layout Level.empty).withTag 0,
      o.x = 0 ∧ o.y = 0 ∧ o.w = 0 ∧ o.h = 0 ∧ o.mouseControl = true) ∧
    (( EditorLevel.initialize layout Level.empty).withTag 0).length = layoutSize layout ∧
    ( EditorLevel.initialize layout Level.empty).objects.length
      = ( EditorLevel.initialize layout Level.empty).entities.length + layoutSize layout := by
  have hT0 : Level.empty.TagsKnown := by intro o ho; simp [Level.empty] at ho
  obtain ⟨l, hl, hcalls⟩ := layoutCalls_steps layout 0
  obtain ⟨-, hT, ks, hlen, hks⟩ := scan_controllers l WF_empty hT0
  rw [← hcalls] at hT hks
  rw [hl] at hlen
  have hks2 : ( EditorLevel.initialize layout Level.empty).withTag 0 = ks.map EditorObject := by
    unfold EditorLevel.initialize EditorLevel.initializeCalls
    rw [hks]
    simp [Level.withTag, Level.empty]
  have hlen2 : (( EditorLevel.initialize layout Level.empty).withTag 0).length
      = layoutSize layout := by rw [hks2, List.length_map, hlen]
  refine ⟨?_, ⟨ks, hlen, hks2⟩, ?_, hlen2, ?_⟩
  · unfold EditorLevel.initializeCalls
    rw [hcalls, flatMap_scanStep_count, hl]
  · intro o ho
    rw [hks2] at ho
    obtain ⟨k, -, rfl⟩ := List.mem_map.1 ho
    exact ⟨rfl, rfl, rfl, rfl, rfl⟩
  · rw [← hlen2]
    exact length_eq_entities_add_controllers hT

end Editor

namespace Editor

/-- C4, as stated, fails on the scenario: re-encoding the level decoded from
`["O.P", "..G"]` does not give back the two rows but the 20 rows of the level's bounds,
and the decoded registry holds, next to the three entities, six tag-0 `EditorObject`s on
cell (0,0). -/
theorem reencode_scenario_not_identical :
    ( EditorLevel.initialize ["O.P".toList, "..G".toList] Level.empty).exportLevel SIZE '.'
      ≠ ["O.P".toList, "..G".toList] ∧
    (( EditorLevel.initialize ["O.P".toList, "..G".toList] Level.empty).exportLevel SIZE
      '.').length = 20 ∧
    ( EditorLevel.initialize ["O.P".toList, "..G".toList] Level.empty).objects.map
        (fun o => (o.tag, o.cell SIZE))
      = [(3, (0, 0)), (0, (0, 0)), (0, (0, 0)), (1, (2, 0)), (0, (0, 0)), (0, (0, 0)),
         (0, (0, 0)), (2, (2, 1)), (0, (0, 0))] := by
  refine ⟨?_, by decide, by decide⟩
  intro h
  have := congrArg List.length h
  revert this
  decide

/-- C4, amended: for every level whose placed entities (the objects with one of the five
tags) satisfy the invariants (no shared cell, at most one Player, at most one Goal), lie
within the 20 x 20 bounds and are each the object that the lookup reports at their cell,
and for an empty symbol that is none of the five tag symbols, decoding the exported rows
through `makeObject` from the empty level yields placed entities with the same
(tag, cell) pairs; and re-encoding the level decoded from `["O.P", "..G"]` with `.` as the
empty symbol yields 20 rows of 20 symbols: `O.P` and `..G`, each padded with 17 empty
symbols, followed by 18 empty rows.  The tag-0 `EditorObject`s may share cell (0,0); every
level loaded by `initialize` from a layout of at most 3355445 rows and columns and then
edited by calls on in-range cells meets the first and third condition
(`loaded_level_visible`). -/
theorem export_initialize_roundtrip (L : Level) (e : Char) (hinv : L.Invariants)
    (hvis : L.EntitiesVisible) (hb : L.InBounds) (he : symbolTag e = none) :
    (∀ q, q ∈ ( EditorLevel.initialize (L.exportLevel SIZE e) Level.empty).pairs
      ↔ q ∈ L.pairs) ∧
    (( EditorLevel.initialize (L.exportLevel SIZE e) Level.empty).pairs).Perm L.pairs ∧
    ( EditorLevel.initialize ["O.P".toList, "..G".toList] Level.empty).exportLevel SIZE '.'
      = ("O.P".toList ++ emptyRow '.' 17) :: ("..G".toList ++ emptyRow '.' 17)
          :: List.replicate 18 (emptyRow '.' 20) := by
  have hmem : ∀ q, q ∈ ( EditorLevel.initialize (L.exportLevel SIZE e) Level.empty).pairs
      ↔ q ∈ L.pairs := by
    intro q
    rw [initialize_export_pairs hinv hvis hb e he]
    exact mem_export_pairs hvis hb e he q
  refine ⟨hmem, ?_, by decide⟩
  rw [List.perm_ext_iff_of_nodup _ (pairs_nodup hinv.1)]
  · exact hmem
  · rw [initialize_export_pairs hinv hvis hb e he]
    exact List.Nodup.of_map _
      (List.Nodup.sublist (filterMap_symbol_cells_sublist _) (scanCells_nodup _))

/-- C4, amended, at a concrete input: the level decoded from `["O.P", "..G"]` itself (the
Block, the Player, the Goal and six `EditorObject`s on (0,0)), exported with `.` as the
empty symbol. -/
theorem export_initialize_roundtrip_witness :
    ( EditorLevel.initialize ["O.P".toList, "..G".toList] Level.empty).Invariants ∧
    ( EditorLevel.initialize ["O.P".toList, "..G".toList] Level.empty).EntitiesVisible ∧
    ( EditorLevel.initialize ["O.P".toList, "..G".toList] Level.empty).InBounds ∧
    symbolTag '.' = none ∧
    (∀ q, q ∈ ( EditorLevel.initialize
        (( EditorLevel.initialize ["O.P".toList, "..G".toList] Level.empty).exportLevel
          SIZE '.') Level.empty).pairs
      ↔ q ∈ ( EditorLevel.initialize ["O.P".toList, "..G".toList] Level.empty).pairs) ∧
    (( EditorLevel.initialize
        (( EditorLevel.initialize ["O.P".toList, "..G".toList] Level.empty).exportLevel
          SIZE '.') Level.empty).pairs).Perm
      ( EditorLevel.initialize ["O.P".toList, "..G".toList] Level.empty).pairs ∧
    ( EditorLevel.initialize ["O.P".toList, "..G".toList] Level.empty).exportLevel SIZE '.'
      = ("O.P".toList ++ emptyRow '.' 17) :: ("..G".toList ++ emptyRow '.' 17)
          :: List.replicate 18 (emptyRow '.' 20) :=
  ⟨by unfold Level.Invariants; decide, by unfold Level.EntitiesVisible; decide,
    by unfold Level.InBounds; decide, by decide,
    export_initialize_roundtrip
      ( EditorLevel.initialize ["O.P".toList, "..G".toList] Level.empty) '.'
      (by unfold Level.Invariants; decide) (by unfold Level.EntitiesVisible; decide)
      (by unfold Level.InBounds; decide) (by decide)⟩

end Editor
